import Mathlib

/-!
# Verification of the sanjaya dynamic reporting engine

A shallow embedding of the core of the `sanjaya` repository:

* `sanjaya_core/filters.py` — the recursive filter tree and its in-memory
  row evaluator;
* `sanjaya_sqlalchemy/filters.py` — the SQL compiler for filter trees,
  together with a three-valued model of standard SQL `WHERE` semantics;
* `sanjaya_core/mock.py` — the in-memory provider (query, sort, projection,
  simple and pivot aggregation);
* `sanjaya_sqlalchemy/provider.py` — the SQL provider, modelled over an
  abstract table (a list of rows) with relational semantics for the
  statements it builds;
* `sanjaya/registry.py` — the provider registry;
* the JSON (de)serialisation of filter groups with the `"not"` alias;
* `sanjaya_django/api/pivot.py` and `sanjaya/services/pivot.py` — the grid
  translator's dispatch and pivot-capability gate.

Python dynamic values are modelled by the inductive `Value`; Python numbers
(ints and floats) are modelled as exact rationals.  Cross-type ordering
comparisons, which raise `TypeError` in Python, are modelled by the partial
comparator `pyCmp?` where the source catches the exception (`_safe_cmp`),
and by a documented total extension `valueCmp` (ranking values by type)
where the source would propagate the exception (sorting keys); theorems
that depend on the order of incomparable values are therefore read modulo
that totalisation.
-/

/-- A Python/JSON dynamic value: `None`, `bool`, number (modelled as an
exact rational), string, or list. -/
inductive Value : Type where
  | null : Value
  | bool (b : Bool) : Value
  | num (q : ℚ) : Value
  | str (s : String) : Value
  | list (vs : List Value) : Value

mutual
/-- Structural equality test for `Value`. -/
def Value.beq : Value → Value → Bool
  | .null, .null => true
  | .bool a, .bool b => a == b
  | .num a, .num b => a == b
  | .str a, .str b => a == b
  | .list a, .list b => Value.beqList a b
  | _, _ => false

/-- Elementwise structural equality for value lists. -/
def Value.beqList : List Value → List Value → Bool
  | [], [] => true
  | a :: as_, b :: bs => Value.beq a b && Value.beqList as_ bs
  | _, _ => false
end

mutual
theorem Value.eq_of_beq : ∀ (a b : Value), Value.beq a b = true → a = b
  | .null, .null, _ => rfl
  | .null, .bool _, h => nomatch h
  | .null, .num _, h => nomatch h
  | .null, .str _, h => nomatch h
  | .null, .list _, h => nomatch h
  | .bool _, .null, h => nomatch h
  | .bool a, .bool b, h => by
    have : a = b := by simpa [Value.beq] using h
    rw [this]
  | .bool _, .num _, h => nomatch h
  | .bool _, .str _, h => nomatch h
  | .bool _, .list _, h => nomatch h
  | .num _, .null, h => nomatch h
  | .num _, .bool _, h => nomatch h
  | .num a, .num b, h => by
    have : a = b := by simpa [Value.beq] using h
    rw [this]
  | .num _, .str _, h => nomatch h
  | .num _, .list _, h => nomatch h
  | .str _, .null, h => nomatch h
  | .str _, .bool _, h => nomatch h
  | .str _, .num _, h => nomatch h
  | .str a, .str b, h => by
    have : a = b := by simpa [Value.beq] using h
    rw [this]
  | .str _, .list _, h => nomatch h
  | .list _, .null, h => nomatch h
  | .list _, .bool _, h => nomatch h
  | .list _, .num _, h => nomatch h
  | .list _, .str _, h => nomatch h
  | .list a, .list b, h => by
    have : a = b := Value.eqList_of_beqList a b (by simpa [Value.beq] using h)
    rw [this]

theorem Value.eqList_of_beqList :
    ∀ (a b : List Value), Value.beqList a b = true → a = b
  | [], [], _ => rfl
  | [], _ :: _, h => nomatch h
  | _ :: _, [], h => nomatch h
  | a :: as_, b :: bs, h => by
    have h' := h
    simp only [Value.beqList, Bool.and_eq_true] at h'
    rw [Value.eq_of_beq a b h'.1, Value.eqList_of_beqList as_ bs h'.2]
end

theorem Value.beq_rfl : ∀ (a : Value), Value.beq a a = true := by
  intro a
  refine @Value.rec (fun v => Value.beq v v = true)
    (fun l => Value.beqList l l = true) ?_ ?_ ?_ ?_ ?_ ?_ ?_ a
  · rfl
  · intro b
    simp [Value.beq]
  · intro q
    simp [Value.beq]
  · intro s
    simp [Value.beq]
  · intro vs ih
    simpa [Value.beq] using ih
  · rfl
  · intro v vs ihv ihvs
    simp [Value.beqList, ihv, ihvs]

instance : DecidableEq Value := fun a b =>
  if h : Value.beq a b = true then
    isTrue (Value.eq_of_beq a b h)
  else
    isFalse (fun e => h (e ▸ Value.beq_rfl a))

instance : BEq Value := ⟨Value.beq⟩

instance : LawfulBEq Value where
  eq_of_beq h := Value.eq_of_beq _ _ h
  rfl := Value.beq_rfl _

namespace Value

/-- Numeric view: Python treats `bool` as a number (`True == 1`). -/
def asNum? : Value → Option ℚ
  | .bool b => some (if b then 1 else 0)
  | .num q => some q
  | _ => none

end Value

mutual
/-- Python `==` (structural equality with numeric `bool`/number coercion;
lists compare elementwise; `None == None` is `True`; cross-type comparisons
are `False`, never errors). -/
def pyEq : Value → Value → Bool
  | .null, .null => true
  | .str a, .str b => a == b
  | .list a, .list b => pyEqList a b
  | a, b =>
    match a.asNum?, b.asNum? with
    | some x, some y => x == y
    | _, _ => false

/-- Elementwise Python `==` on lists. -/
def pyEqList : List Value → List Value → Bool
  | [], [] => true
  | a :: as_, b :: bs => pyEq a b && pyEqList as_ bs
  | _, _ => false
end

mutual
/-- Python `<`-style rich comparison: `some` ordering when the two values
are comparable in Python 3, `none` where Python raises `TypeError`
(cross-type comparisons, comparisons involving `None`). -/
def pyCmp? : Value → Value → Option Ordering
  | .str a, .str b => some (compare a b)
  | .list a, .list b => pyCmpList? a b
  | a, b =>
    match a.asNum?, b.asNum? with
    | some x, some y => some (compare x y)
    | _, _ => none

/-- Lexicographic Python comparison of lists (elementwise, propagating
incomparability). -/
def pyCmpList? : List Value → List Value → Option Ordering
  | [], [] => some .eq
  | [], _ :: _ => some .lt
  | _ :: _, [] => some .gt
  | a :: as_, b :: bs =>
    match pyCmp? a b with
    | some .eq => pyCmpList? as_ bs
    | some o => some o
    | none => none
end

/-- Rank used to totalise comparisons across types (`None` < numbers <
strings < lists).  Python would raise `TypeError` on such comparisons;
sorting code in the source propagates that exception, and this model
totalises it instead (see the module docstring). -/
def typeRank : Value → Nat
  | .null => 0
  | .bool _ => 1
  | .num _ => 1
  | .str _ => 2
  | .list _ => 3

mutual
/-- Total comparison on values: Python ordering within a comparable class,
type rank across classes. -/
def valueCmp : Value → Value → Ordering
  | .str a, .str b => compare a b
  | .list a, .list b => valueCmpList a b
  | a, b =>
    match a.asNum?, b.asNum? with
    | some x, some y => compare x y
    | _, _ => compare (typeRank a) (typeRank b)

/-- Lexicographic total comparison of value lists. -/
def valueCmpList : List Value → List Value → Ordering
  | [], [] => .eq
  | [], _ :: _ => .lt
  | _ :: _, [] => .gt
  | a :: as_, b :: bs =>
    match valueCmp a b with
    | .eq => valueCmpList as_ bs
    | o => o
end

mutual
/-- Python `str()` of a value (used for pivot keys and substring
operators).  Non-integer rationals are printed as `num/den`, an
approximation of Python's float formatting; lists via `repr`-style
brackets (strings inside a list are quoted, as `repr` does, while
scalars print identically under `str` and `repr`). -/
def pyStr : Value → String
  | .null => "None"
  | .bool b => if b then "True" else "False"
  | .num q => if q.den = 1 then toString q.num else toString q
  | .str s => s
  | .list vs => "[" ++ pyStrInner vs ++ "]"

/-- `repr`-style comma-joined elements of a list (strings get quotes). -/
def pyStrInner : List Value → String
  | [] => ""
  | [.str s] => "'" ++ s ++ "'"
  | [v] => pyStr v
  | .str s :: rest => "'" ++ s ++ "', " ++ pyStrInner rest
  | v :: rest => pyStr v ++ ", " ++ pyStrInner rest
end

/-- A row: a Python dict from column names to values (association list in
insertion order; keys are unique in every row produced by the code under
study). -/
abbrev Row := List (String × Value)

/-- `row.get(c)` with absent keys read as `None` — exactly how every use in
`filters.py` and `mock.py` treats the result. -/
def rowGet (r : Row) (c : String) : Value :=
  (r.lookup c).getD .null

/-- `FilterOperator` (enums.py). -/
inductive FilterOperator : Type where
  | eq | neq | gt | lt | gte | lte
  | contains | startswith | endswith
  | isNull | isNotNull | between | inOp
  deriving DecidableEq

/-- `FilterCombinator` (enums.py). -/
inductive FilterCombinator : Type where
  | and | or
  deriving DecidableEq

/-- `FilterCondition` (filters.py): `column <operator> value` with a
`negate` flag. -/
structure FilterCondition : Type where
  column : String
  operator : FilterOperator
  value : Value := .null
  negate : Bool := false
  deriving DecidableEq

/-- `FilterGroup` (filters.py): recursive boolean group of conditions and
nested groups. -/
inductive FilterGroup : Type where
  | mk (combinator : FilterCombinator) (negate : Bool)
       (conditions : List FilterCondition) (groups : List FilterGroup)

namespace FilterGroup

def combinator : FilterGroup → FilterCombinator
  | .mk c _ _ _ => c

def negate : FilterGroup → Bool
  | .mk _ n _ _ => n

def conditions : FilterGroup → List FilterCondition
  | .mk _ _ cs _ => cs

def groups : FilterGroup → List FilterGroup
  | .mk _ _ _ gs => gs

end FilterGroup

/-- `_safe_cmp` (filters.py): compare two values with a boolean test on the
resulting ordering, returning `False` when either side is `None` or the
values are incomparable (`TypeError`). -/
def safeCmp (a b : Value) (test : Ordering → Bool) : Bool :=
  if a == .null || b == .null then false
  else match pyCmp? a b with
    | some o => test o
    | none => false

/-- Boolean prefix test on character lists (Python `str.startswith`). -/
def charsPrefix (needle hay : List Char) : Bool :=
  needle.isPrefixOf hay

/-- Boolean suffix test on character lists (Python `str.endswith`). -/
def charsSuffix (needle hay : List Char) : Bool :=
  needle.reverse.isPrefixOf hay.reverse

/-- Boolean substring test on character lists (Python `in` on strings,
SQL `LIKE '%…%'` with an autoescaped pattern). -/
def charsInfix (needle hay : List Char) : Bool :=
  charsPrefix needle hay ||
    match hay with
    | [] => false
    | _ :: t => charsInfix needle t

/-- `FilterCondition._match` (filters.py): operator dispatch on the cell
value and the bound value. -/
def FilterCondition.matches (c : FilterCondition) (cell : Value) : Bool :=
  match c.operator with
  | .eq => pyEq cell c.value
  | .neq => !(pyEq cell c.value)
  | .gt => safeCmp cell c.value (· == .gt)
  | .lt => safeCmp cell c.value (· == .lt)
  | .gte => safeCmp cell c.value (· != .lt)
  | .lte => safeCmp cell c.value (· != .gt)
  | .contains =>
      c.value != .null && cell != .null
        && charsInfix (pyStr c.value).toList (pyStr cell).toList
  | .startswith =>
      c.value != .null && cell != .null
        && charsPrefix (pyStr c.value).toList (pyStr cell).toList
  | .endswith =>
      c.value != .null && cell != .null
        && charsSuffix (pyStr c.value).toList (pyStr cell).toList
  | .isNull => cell == .null
  | .isNotNull => cell != .null
  | .between =>
      match c.value with
      | .list [lo, hi] =>
          cell != .null && safeCmp cell lo (· != .lt) && safeCmp cell hi (· != .gt)
      | _ => false
  | .inOp =>
      match c.value with
      | .list vs => vs.any (fun v => pyEq cell v)
      | _ => false

/-- `FilterCondition.evaluate` (filters.py): `_match` on `row.get(column)`,
then `negate`. -/
def FilterCondition.evaluate (c : FilterCondition) (row : Row) : Bool :=
  let result := c.matches (rowGet row c.column)
  if c.negate then !result else result

mutual
/-- `FilterGroup.evaluate` (filters.py): evaluate children, combine with
the combinator (empty group is `True`), then `negate`. -/
def FilterGroup.evaluate : FilterGroup → Row → Bool
  | .mk comb neg conds groups, row =>
    let parts := conds.map (fun c => c.evaluate row) ++ FilterGroup.evalList groups row
    let result :=
      if parts.isEmpty then true
      else if comb = .and then parts.all id
      else parts.any id
    if neg then !result else result

/-- Evaluate a list of nested groups. -/
def FilterGroup.evalList : List FilterGroup → Row → List Bool
  | [], _ => []
  | g :: gs, row => g.evaluate row :: FilterGroup.evalList gs row
end

/-! ## SQL compilation of filter trees (sanjaya_sqlalchemy/filters.py)

`compile_filter_group` walks the filter tree and builds a SQLAlchemy
boolean expression.  We model the expressions the compiler can emit as the
inductive `SqlPred`, and give them standard SQL three-valued `WHERE`
semantics via `sqlEvalPred` below. -/

/-- Comparison operators appearing in compiled SQL predicates. -/
inductive SqlCmp : Type where
  | eq | neq | gt | lt | gte | lte
  deriving DecidableEq

/-- The shapes of `LIKE` patterns the compiler emits (`contains`,
`startswith`, `endswith` with `autoescape=True`, so the bound string is
matched literally). -/
inductive LikeKind : Type where
  | contains | startswith | endswith
  deriving DecidableEq

/-- The SQLAlchemy boolean expressions `compile_filter_group` can build. -/
inductive SqlPred : Type where
  | litTrue : SqlPred
  | isNull (col : String) : SqlPred
  | isNotNull (col : String) : SqlPred
  | cmp (op : SqlCmp) (col : String) (v : Value) : SqlPred
  | like (kind : LikeKind) (col : String) (pat : String) : SqlPred
  | between (col : String) (lo hi : Value) : SqlPred
  | inList (col : String) (vs : List Value) : SqlPred
  | and (ps : List SqlPred) : SqlPred
  | or (ps : List SqlPred) : SqlPred
  | not (p : SqlPred) : SqlPred

/-- Python-level errors an embedded operation can raise (builtin
`KeyError`/`TypeError` plus the `sanjaya_core.exceptions` hierarchy). -/
inductive PyError : Type where
  | keyError (key : String) : PyError
  | typeError : PyError
  | datasetNotFound (key : String) : PyError
  | columnNotFound (column : String) : PyError
  | filterValidation (msg : String) : PyError
  | aggregationNotSupported : PyError
  deriving DecidableEq

/-- `_compile_condition` (sanjaya_sqlalchemy/filters.py).  The column is
looked up in `column_lookup` (`KeyError` when absent — the compiler's own
docstring documents this).  SQLAlchemy folds `col == None` into
`col IS NULL` and `col != None` into `col IS NOT NULL`; `BETWEEN` indexes
`v[0]`/`v[1]` (`TypeError`/`IndexError` on non-indexable or short values,
with Python strings indexable character-wise); `IN` applies `list(v)`
(`TypeError` on non-iterables, strings exploding into characters). -/
def compileCondition (lookup : List String) (c : FilterCondition) :
    Except PyError SqlPred :=
  if !(lookup.contains c.column) then .error (.keyError c.column)
  else
    let v := c.value
    let expr? : Except PyError SqlPred :=
      match c.operator with
      | .eq => .ok (if v == .null then .isNull c.column else .cmp .eq c.column v)
      | .neq => .ok (if v == .null then .isNotNull c.column else .cmp .neq c.column v)
      | .gt => .ok (.cmp .gt c.column v)
      | .lt => .ok (.cmp .lt c.column v)
      | .gte => .ok (.cmp .gte c.column v)
      | .lte => .ok (.cmp .lte c.column v)
      | .contains => .ok (.like .contains c.column (pyStr v))
      | .startswith => .ok (.like .startswith c.column (pyStr v))
      | .endswith => .ok (.like .endswith c.column (pyStr v))
      | .isNull => .ok (.isNull c.column)
      | .isNotNull => .ok (.isNotNull c.column)
      | .between =>
          match v with
          | .list (lo :: hi :: _) => .ok (.between c.column lo hi)
          | .str s =>
              match s.toList with
              | a :: b :: _ =>
                  .ok (.between c.column (.str (String.mk [a])) (.str (String.mk [b])))
              | _ => .error .typeError
          | _ => .error .typeError
      | .inOp =>
          match v with
          | .list vs => .ok (.inList c.column vs)
          | .str s => .ok (.inList c.column (s.toList.map (fun ch => .str (String.mk [ch]))))
          | _ => .error .typeError
    match expr? with
    | .error e => .error e
    | .ok expr => .ok (if c.negate then .not expr else expr)

/-- Compile each condition of a list, propagating the first error. -/
def compileConditions (lookup : List String) :
    List FilterCondition → Except PyError (List SqlPred)
  | [] => .ok []
  | c :: cs =>
      match compileCondition lookup c with
      | .error e => .error e
      | .ok p =>
        match compileConditions lookup cs with
        | .error e => .error e
        | .ok ps => .ok (p :: ps)

mutual
/-- `compile_filter_group` (sanjaya_sqlalchemy/filters.py): compile child
conditions then child groups, combine with `AND`/`OR` (empty group becomes
the literal `TRUE`), then wrap in `NOT` when negated. -/
def compileFilterGroup (fg : FilterGroup) (lookup : List String) :
    Except PyError SqlPred :=
  match fg with
  | .mk comb neg conds groups =>
      match compileConditions lookup conds with
      | .error e => .error e
      | .ok ps =>
        match compileGroups groups lookup with
        | .error e => .error e
        | .ok qs =>
          let parts := ps ++ qs
          let expr : SqlPred :=
            if parts.isEmpty then .litTrue
            else if comb = .and then .and parts
            else .or parts
          .ok (if neg then .not expr else expr)

/-- Compile a list of nested groups, propagating the first error. -/
def compileGroups (gs : List FilterGroup) (lookup : List String) :
    Except PyError (List SqlPred) :=
  match gs with
  | [] => .ok []
  | g :: rest =>
      match compileFilterGroup g lookup with
      | .error e => .error e
      | .ok p =>
        match compileGroups rest lookup with
        | .error e => .error e
        | .ok ps => .ok (p :: ps)
end

/-! ### Three-valued SQL semantics

A model of how a standard SQL backend evaluates the compiled predicate on
one row.  Comparisons involving `NULL` are `UNKNOWN`; comparisons between
values no common SQL type system orders (e.g. a number and a string) are
modelled as `UNKNOWN` as well (in reality this is dialect-dependent — some
engines raise, SQLite applies a type-affinity order).  A row is in the
result set of a `WHERE` clause iff the predicate evaluates to `TRUE`. -/

/-- SQL three-valued truth values. -/
inductive TV : Type where
  | t | f | u
  deriving DecidableEq

namespace TV

def and : TV → TV → TV
  | .f, _ => .f
  | _, .f => .f
  | .t, .t => .t
  | _, _ => .u

def or : TV → TV → TV
  | .t, _ => .t
  | _, .t => .t
  | .f, .f => .f
  | _, _ => .u

def not : TV → TV
  | .t => .f
  | .f => .t
  | .u => .u

/-- Embed a two-valued result. -/
def ofBool : Bool → TV
  | true => .t
  | false => .f

end TV

/-- SQL comparison of two non-null values: ordered within a comparable
class, `UNKNOWN` across classes (dialect-dependent in reality). -/
def sqlCompare (a b : Value) : Option Ordering :=
  pyCmp? a b

/-- Three-valued SQL comparison (`UNKNOWN` when either side is `NULL` or
the values are incomparable). -/
def sqlCmpTV (op : SqlCmp) (a b : Value) : TV :=
  if a == .null || b == .null then .u
  else match sqlCompare a b with
    | none => .u
    | some o =>
        .ofBool <| match op with
          | .eq => o == .eq
          | .neq => o != .eq
          | .gt => o == .gt
          | .lt => o == .lt
          | .gte => o != .lt
          | .lte => o != .gt

/-- Three-valued `LIKE` against an autoescaped literal pattern: `UNKNOWN`
on a `NULL` cell, string match on a string cell, `UNKNOWN` on non-string
cells (dialect-dependent casting in reality). -/
def sqlLikeTV (kind : LikeKind) (cell : Value) (pat : String) : TV :=
  match cell with
  | .null => .u
  | .str s =>
      .ofBool <| match kind with
        | .contains => charsInfix pat.toList s.toList
        | .startswith => charsPrefix pat.toList s.toList
        | .endswith => charsSuffix pat.toList s.toList
  | _ => .u

/-- Three-valued SQL `IN`: `TRUE` on a definite match, `FALSE` when every
comparison is definitely false (including the empty list, which SQLAlchemy
compiles to a false expression), otherwise `UNKNOWN`. -/
def sqlInTV (cell : Value) (vs : List Value) : TV :=
  if vs.isEmpty then .f
  else if vs.any (fun v => sqlCmpTV .eq cell v == .t) then .t
  else if vs.all (fun v => sqlCmpTV .eq cell v == .f) then .f
  else .u

mutual
/-- Evaluate a compiled SQL predicate on one row under three-valued SQL
semantics. -/
def sqlEvalPred : SqlPred → Row → TV
  | .litTrue, _ => .t
  | .isNull c, row => .ofBool (rowGet row c == .null)
  | .isNotNull c, row => .ofBool (rowGet row c != .null)
  | .cmp op c v, row => sqlCmpTV op (rowGet row c) v
  | .like kind c pat, row => sqlLikeTV kind (rowGet row c) pat
  | .between c lo hi, row =>
      TV.and (sqlCmpTV .gte (rowGet row c) lo) (sqlCmpTV .lte (rowGet row c) hi)
  | .inList c vs, row => sqlInTV (rowGet row c) vs
  | .and ps, row => sqlEvalAnd ps row
  | .or ps, row => sqlEvalOr ps row
  | .not p, row => TV.not (sqlEvalPred p row)

/-- Three-valued conjunction of a predicate list (`sa.and_`). -/
def sqlEvalAnd : List SqlPred → Row → TV
  | [], _ => .t
  | p :: ps, row => TV.and (sqlEvalPred p row) (sqlEvalAnd ps row)

/-- Three-valued disjunction of a predicate list (`sa.or_`). -/
def sqlEvalOr : List SqlPred → Row → TV
  | [], _ => .f
  | p :: ps, row => TV.or (sqlEvalPred p row) (sqlEvalOr ps row)
end

/-! ## Shared result and spec types (sanjaya_core/types.py, enums.py) -/

/-- `SortDirection` (enums.py). -/
inductive SortDirection : Type where
  | asc | desc
  deriving DecidableEq

/-- `SortSpec` (types.py): one sort directive. -/
structure SortSpec : Type where
  column : String
  direction : SortDirection := .asc
  deriving DecidableEq

/-- `AggFunc` (enums.py). -/
inductive AggFunc : Type where
  | sum | avg | min | max | count | distinctCount | first | last
  deriving DecidableEq

/-- The wire string of an `AggFunc` (`StrEnum` values, which is what
`str()` and f-string interpolation produce in the key-building code). -/
def aggName : AggFunc → String
  | .sum => "sum"
  | .avg => "avg"
  | .min => "min"
  | .max => "max"
  | .count => "count"
  | .distinctCount => "distinctCount"
  | .first => "first"
  | .last => "last"

/-- `ValueSpec` (types.py): a measure column plus aggregate function. -/
structure ValueSpec : Type where
  column : String
  agg : AggFunc
  label : Option String := none
  deriving DecidableEq

/-- `TabularResult` (types.py). -/
structure TabularResult : Type where
  columns : List String
  rows : List Row
  total : Nat

/-- `AggregateColumn` (types.py).  The `type` field, which neither provider
ever sets (always `None`), is omitted. -/
structure AggregateColumn : Type where
  key : String
  header : String
  pivotKeys : List String := []
  measure : Option String := none
  agg : Option AggFunc := none
  deriving DecidableEq

/-- `AggregateResult` (types.py). -/
structure AggregateResult : Type where
  columns : List AggregateColumn
  rows : List Row
  total : Nat

/-! ## In-memory provider (sanjaya_core/mock.py) -/

/-- `MockDataProvider._apply_filter`: keep the rows satisfying the filter
group (`None` keeps everything). -/
def applyFilter (rows : List Row) (fg : Option FilterGroup) : List Row :=
  match fg with
  | none => rows
  | some g => rows.filter (fun r => g.evaluate r)

/-- Python's sort key for one column: `(0, r.get(c))` for non-null cells,
`(1,)` for null cells; this is the strict `<` on those key tuples (with
`valueCmp` totalising the cross-type case where Python's `sorted`
raises). -/
def sortKeyLt (c : String) (r₁ r₂ : Row) : Bool :=
  let v₁ := rowGet r₁ c
  let v₂ := rowGet r₂ c
  if v₁ == .null then false
  else if v₂ == .null then true
  else valueCmp v₁ v₂ == .lt

/-- The non-strict comparator a stable Python `sorted(..., key, reverse)`
realises for one `SortSpec`: `a` may precede `b` iff `b` is not strictly
before `a` in the requested direction. -/
def specLe (s : SortSpec) (a b : Row) : Bool :=
  match s.direction with
  | .asc => !(sortKeyLt s.column b a)
  | .desc => !(sortKeyLt s.column a b)

/-- The loop of `MockDataProvider._apply_sort`: one stable sort per spec,
iterating the spec list in reverse, so the head spec is applied last.
`List.mergeSort` models Python's stable `sorted`. -/
def applySortSpecs : List SortSpec → List Row → List Row
  | [], rows => rows
  | s :: rest, rows => (applySortSpecs rest rows).mergeSort (specLe s)

/-- `MockDataProvider._apply_sort` (`if not sort: return rows`). -/
def applySort (rows : List Row) (sort : Option (List SortSpec)) : List Row :=
  match sort with
  | none => rows
  | some [] => rows
  | some specs => applySortSpecs specs rows

/-- `MockDataProvider._project`: `{c: r.get(c) for c in columns}`. -/
def project (rows : List Row) (columns : List String) : List Row :=
  rows.map (fun r => columns.map (fun c => (c, rowGet r c)))

/-- `islice(rows, offset, offset + limit if limit else None)` — the
pagination slice of `MockDataProvider.query`; `limit = 0` disables the
upper bound. -/
def sliceLimit (rows : List Row) (limit offset : Nat) : List Row :=
  if limit = 0 then rows.drop offset else (rows.drop offset).take limit

/-- `MockDataProvider.query`: filter, count, sort, paginate, project. -/
def mockQuery (data : List Row) (selected : List String)
    (fg : Option FilterGroup := none) (sort : Option (List SortSpec) := none)
    (limit : Nat := 100) (offset : Nat := 0) : TabularResult :=
  let rows := applyFilter data fg
  let total := rows.length
  let rows := applySort rows sort
  let rows := sliceLimit rows limit offset
  let rows := project rows selected
  { columns := selected, rows := rows, total := total }

/-- Append a row to the bucket of its group key (Python `defaultdict`
keyed by the tuple of grouped values; dict keys compare with `==`). -/
def bucketsAdd (bs : List (List Value × List Row)) (k : List Value) (r : Row) :
    List (List Value × List Row) :=
  match bs with
  | [] => [(k, [r])]
  | (k', rs) :: rest =>
      if pyEqList k' k then (k', rs ++ [r]) :: rest
      else (k', rs) :: bucketsAdd rest k r

/-- The grouping loop of `MockDataProvider.aggregate`: buckets keyed by
`tuple(row.get(c) for c in group_by_rows + group_by_cols)`, in first-seen
order, each holding its rows in data order. -/
def buckets (rows : List Row) (keys : List String) : List (List Value × List Row) :=
  rows.foldl (fun bs r => bucketsAdd bs (keys.map (rowGet r)) r) []

/-- Deduplicate keeping first occurrences, with an explicit equality test
(models Python `set` construction where iteration order is then fixed by
sorting). -/
def dedupBy (eq : α → α → Bool) : List α → List α
  | [] => []
  | a :: rest => a :: (dedupBy eq rest).filter (fun b => !(eq a b))

/-- Sum of a value list as Python `sum` computes it, `none` where Python
raises `TypeError` (non-numeric element). -/
def sumValues : List Value → Option ℚ
  | [] => some 0
  | v :: rest => do
      let x ← v.asNum?
      let s ← sumValues rest
      pure (x + s)

/-- Python `min` under the totalised comparator (first minimum wins). -/
def pyMin (v : Value) (rest : List Value) : Value :=
  rest.foldl (fun acc w => if valueCmp w acc == .lt then w else acc) v

/-- Python `max` under the totalised comparator (first maximum wins). -/
def pyMax (v : Value) (rest : List Value) : Value :=
  rest.foldl (fun acc w => if valueCmp acc w == .lt then w else acc) v

/-- `_compute_agg` (mock.py): one aggregate over `column` in `rows`.
`COUNT` counts all values including nulls; `DISTINCT_COUNT` deduplicates
with Python `==`; `SUM`/`AVG`/`MIN`/`MAX` drop nulls and yield `None` on an
empty list.  Where Python's `sum`/`min`/`max` would raise `TypeError`
(non-numeric sums, incomparable values) this model yields `None`
respectively the totalised extremum; no claim exercises those cases. -/
def computeAgg (agg : AggFunc) (column : String) (rows : List Row) : Value :=
  let raw := rows.map (fun r => rowGet r column)
  let nonNull := raw.filter (fun v => v != .null)
  match agg with
  | .count => .num raw.length
  | .distinctCount => .num (dedupBy pyEq raw).length
  | .sum =>
      if nonNull.isEmpty then .null
      else match sumValues nonNull with
        | some s => .num s
        | none => .null
  | .avg =>
      if nonNull.isEmpty then .null
      else match sumValues nonNull with
        | some s => .num (s / nonNull.length)
        | none => .null
  | .min =>
      match nonNull with
      | [] => .null
      | v :: rest => pyMin v rest
  | .max =>
      match nonNull with
      | [] => .null
      | v :: rest => pyMax v rest
  | .first => raw.head?.getD .null
  | .last => raw.getLast?.getD .null

/-- The non-pivot aggregate key `f"{vs.agg}_{vs.column}"`. -/
def simpleAggKey (vs : ValueSpec) : String :=
  aggName vs.agg ++ "_" ++ vs.column

/-- The pivot column key `"_".join(pivot_key_parts + [vs.agg, vs.column])`
where `pivot_key_parts = [str(v) for v in combo]`. -/
def pivotColKey (combo : List Value) (vs : ValueSpec) : String :=
  String.intercalate "_" (combo.map pyStr ++ [aggName vs.agg, vs.column])

/-- The descriptor of one row-group dimension column. -/
def dimColumn (name : String) : AggregateColumn :=
  { key := name, header := name }

/-- The descriptor of one `(pivot combo × measure)` output column, as both
providers construct it. -/
def pivotColumn (combo : List Value) (vs : ValueSpec) : AggregateColumn :=
  { key := pivotColKey combo vs
    header := pivotColKey combo vs
    pivotKeys := combo.map pyStr
    measure := some vs.column
    agg := some vs.agg }

/-- The slice `rows[offset:end]` with
`end = (offset + limit) if limit else None` — both aggregate paths; note
`limit` falsy means `None` or `0`, so both disable the bound. -/
def aggSlice (rows : List Row) (limit : Option Nat) (offset : Nat) : List Row :=
  match limit with
  | some n => if n = 0 then rows.drop offset else (rows.drop offset).take n
  | none => rows.drop offset

/-- `MockDataProvider._simple_aggregate`: one output row per bucket
(dimension entries then one entry per `ValueSpec`), sorted, counted,
sliced. -/
def mockSimpleAggregate (bkts : List (List Value × List Row))
    (gbr : List String) (values : List ValueSpec)
    (sort : Option (List SortSpec)) (limit : Option Nat) (offset : Nat) :
    AggregateResult :=
  let resultColumns :=
    gbr.map dimColumn ++
      values.map (fun vs =>
        { key := simpleAggKey vs
          header := vs.label.getD (simpleAggKey vs)
          measure := some vs.column
          agg := some vs.agg : AggregateColumn })
  let resultRows := bkts.map (fun b =>
    gbr.zip b.1 ++ values.map (fun vs => (simpleAggKey vs, computeAgg vs.agg vs.column b.2)))
  let resultRows := applySort resultRows sort
  let total := resultRows.length
  { columns := resultColumns, rows := aggSlice resultRows limit offset, total := total }

/-- Python `sorted` over discovered pivot combos (ascending, under the
totalised comparator — Python raises on incomparable combos). -/
def comboLe (a b : List Value) : Bool :=
  !(valueCmpList b a == .lt)

/-- Python dict assignment `d[k] = v`: overwrite in place, else append. -/
def dictSet (r : Row) (k : String) (v : Value) : Row :=
  if r.any (fun e => e.1 == k) then
    r.map (fun e => if e.1 == k then (k, v) else e)
  else r ++ [(k, v)]

/-- One iteration of the row-group accumulation loop of
`MockDataProvider._pivot_aggregate`: ensure the row-dims entry exists, then
write one `(pivot key × aggregate)` cell per `ValueSpec` from this
bucket. -/
def pivotAccumulate (gbr : List String) (values : List ValueSpec) (n : Nat)
    (rgs : List (List Value × Row)) (b : List Value × List Row) :
    List (List Value × Row) :=
  let rowKey := b.1.take n
  let rgs :=
    if rgs.any (fun e => pyEqList e.1 rowKey) then rgs
    else rgs ++ [(rowKey, gbr.zip b.1)]
  rgs.map (fun e =>
    if pyEqList e.1 rowKey then
      (e.1, values.foldl (fun dest vs =>
        dictSet dest (pivotColKey (b.1.drop n) vs) (computeAgg vs.agg vs.column b.2)) e.2)
    else e)

/-- `MockDataProvider._pivot_aggregate`: discover pivot combos from the
bucket keys (a Python `set`, then `sorted`), build the canonical column
list, then accumulate one output row per distinct row-dims tuple. -/
def mockPivotAggregate (bkts : List (List Value × List Row))
    (gbr gbc : List String) (values : List ValueSpec)
    (sort : Option (List SortSpec)) (limit : Option Nat) (offset : Nat) :
    AggregateResult :=
  let n := gbr.length
  let sortedCombos :=
    (dedupBy pyEqList (bkts.map (fun b => b.1.drop n))).mergeSort comboLe
  let resultColumns :=
    gbr.map dimColumn ++
      sortedCombos.flatMap (fun combo => values.map (pivotColumn combo))
  let resultRows := (bkts.foldl (pivotAccumulate gbr values n) []).map (fun e => e.2)
  let resultRows := applySort resultRows sort
  let total := resultRows.length
  { columns := resultColumns, rows := aggSlice resultRows limit offset, total := total }

/-- `MockDataProvider.aggregate`: filter, group by
`group_by_rows ++ group_by_cols`, then dispatch on `group_by_cols`. -/
def mockAggregate (data : List Row) (gbr gbc : List String)
    (values : List ValueSpec) (fg : Option FilterGroup := none)
    (sort : Option (List SortSpec) := none) (limit : Option Nat := none)
    (offset : Nat := 0) : AggregateResult :=
  let rows := applyFilter data fg
  let bkts := buckets rows (gbr ++ gbc)
  if gbc.isEmpty then
    mockSimpleAggregate bkts gbr values sort limit offset
  else
    mockPivotAggregate bkts gbr gbc values sort limit offset

/-! ## SQL provider (sanjaya_sqlalchemy/provider.py)

The provider holds a selectable and a column lookup built from its
`ColumnMeta` list; we model the selectable's result set as a list of rows
(`table`) and the statements the provider builds with relational
semantics: `WHERE` keeps the rows on which the compiled predicate is
`TRUE`, `ORDER BY` is modelled as a stable sort under the totalised
comparator (SQL leaves tie order unspecified; `NULL`s are ranked first as
in SQLite), `LIMIT`/`OFFSET` slice the result, `SELECT DISTINCT` and
`GROUP BY` deduplicate by SQL equality (modelled with `pyEq`, with `NULL`s
collapsing as SQL `DISTINCT`/`GROUP BY` do). -/

/-- Rows kept by a compiled `WHERE` clause (only `TRUE` survives). -/
def sqlWhere (table : List Row) (pred : Option SqlPred) : List Row :=
  match pred with
  | none => table
  | some p => table.filter (fun r => sqlEvalPred p r == TV.t)

/-- `ORDER BY` comparator for one `SortSpec` over projected cell values
(`NULL` ranks lowest, as `typeRank` already ensures). -/
def sqlSpecLe (s : SortSpec) (a b : Row) : Bool :=
  match s.direction with
  | .asc => !(valueCmp (rowGet b s.column) (rowGet a s.column) == .lt)
  | .desc => !(valueCmp (rowGet a s.column) (rowGet b s.column) == .lt)

/-- `SQLAlchemyProvider._apply_sort`: append `ORDER BY` clauses (a no-op
for `None` or `[]`); modelled as iterated stable sorts, innermost last
key. -/
def sqlApplySort (rows : List Row) (sort : Option (List SortSpec)) : List Row :=
  match sort with
  | none => rows
  | some [] => rows
  | some specs => specs.foldr (fun s acc => acc.mergeSort (sqlSpecLe s)) rows

/-- `LIMIT limit OFFSET offset` — the limit is always applied, including
`LIMIT 0`, which returns no rows. -/
def sqlLimitOffset (rows : List Row) (limit : Option Nat) (offset : Nat) : List Row :=
  match limit with
  | some n => (rows.drop offset).take n
  | none => rows.drop offset

/-- Compile the optional filter of a provider call (`None` compiles to no
`WHERE` clause). -/
def compileOptFilter (fg : Option FilterGroup) (lookup : List String) :
    Except PyError (Option SqlPred) :=
  match fg with
  | none => .ok none
  | some g =>
      match compileFilterGroup g lookup with
      | .error e => .error e
      | .ok p => .ok (some p)

/-- `SQLAlchemyProvider.query`: compile the filter, look up the projected
columns (a plain dict access — `KeyError` on unknown names, before any SQL
is executed), then run a count statement and a data statement. -/
def sqlQuery (table : List Row) (lookup : List String) (selected : List String)
    (fg : Option FilterGroup := none) (sort : Option (List SortSpec) := none)
    (limit : Nat := 100) (offset : Nat := 0) : Except PyError TabularResult :=
  match compileOptFilter fg lookup with
  | .error e => .error e
  | .ok pred =>
    match selected.find? (fun c => !(lookup.contains c)) with
    | some c => .error (.keyError c)
    | none =>
      let filtered := sqlWhere table pred
      let total := filtered.length
      let rows := sqlApplySort filtered sort
      let rows := sqlLimitOffset rows (some limit) offset
      let rows := project rows selected
      .ok { columns := selected, rows := rows, total := total }

/-- SQL aggregate over the cells a `CASE WHEN`-style selection produced:
`NULL`s are dropped, empty input yields `NULL`, `COUNT(expr)` counts
non-null values, `COUNT(DISTINCT expr)` deduplicates them, and `FIRST` and
`LAST` are approximated by `MIN`/`MAX` exactly as `_wrap_agg` does. -/
def sqlComputeAgg (agg : AggFunc) (cells : List Value) : Value :=
  let nonNull := cells.filter (fun v => v != .null)
  match agg with
  | .count => .num nonNull.length
  | .distinctCount => .num (dedupBy pyEq nonNull).length
  | .sum =>
      if nonNull.isEmpty then .null
      else match sumValues nonNull with
        | some s => .num s
        | none => .null
  | .avg =>
      if nonNull.isEmpty then .null
      else match sumValues nonNull with
        | some s => .num (s / nonNull.length)
        | none => .null
  | .min | .first =>
      match nonNull with
      | [] => .null
      | v :: rest => pyMin v rest
  | .max | .last =>
      match nonNull with
      | [] => .null
      | v :: rest => pyMax v rest

/-- `GROUP BY` keys of a table in first-appearance order (SQL leaves group
output order unspecified; first appearance is this model's choice). -/
def sqlGroups (rows : List Row) (cols : List String) : List (List Value) :=
  dedupBy pyEqList (rows.map (fun r => cols.map (rowGet r)))

/-- The rows of one `GROUP BY` group. -/
def sqlGroupRows (rows : List Row) (cols : List String) (key : List Value) :
    List Row :=
  rows.filter (fun r => pyEqList (cols.map (rowGet r)) key)

/-- `SQLAlchemyProvider._simple_aggregate`: grouped select of the row dims
plus one labelled aggregate per `ValueSpec`; the count statement counts
the distinct groups; result rows are dense dicts over exactly the selected
labels. -/
def sqlSimpleAggregate (table : List Row) (lookup : List String)
    (gbr : List String) (values : List ValueSpec)
    (fg : Option FilterGroup := none) (sort : Option (List SortSpec) := none)
    (limit : Option Nat := none) (offset : Nat := 0) :
    Except PyError AggregateResult :=
  match gbr.find? (fun c => !(lookup.contains c)) with
  | some c => .error (.keyError c)
  | none =>
  match values.find? (fun vs => !(lookup.contains vs.column)) with
  | some vs => .error (.keyError vs.column)
  | none =>
  match compileOptFilter fg lookup with
  | .error e => .error e
  | .ok pred =>
  let resultColumns :=
    gbr.map dimColumn ++
      values.map (fun vs =>
        { key := simpleAggKey vs
          header := vs.label.getD (simpleAggKey vs)
          measure := some vs.column
          agg := some vs.agg : AggregateColumn })
  let filtered := sqlWhere table pred
  let total := (sqlGroups filtered gbr).length
  let dataRows := (sqlGroups filtered gbr).map (fun key =>
    let grp := sqlGroupRows filtered gbr key
    gbr.zip key ++
      values.map (fun vs =>
        (simpleAggKey vs, sqlComputeAgg vs.agg (grp.map (fun r => rowGet r vs.column)))))
  let dataRows := sqlApplySort dataRows sort
  let dataRows := sqlLimitOffset dataRows limit offset
  .ok { columns := resultColumns, rows := dataRows, total := total }

/-- Pass 1 of `SQLAlchemyProvider._pivot_aggregate`:
`SELECT DISTINCT <pivot cols> … ORDER BY <pivot cols>` under the filter —
the distinct pivot tuples of the filtered rows, sorted ascending. -/
def sqlDiscoverCombos (table : List Row) (pred : Option SqlPred)
    (gbc : List String) : List (List Value) :=
  (dedupBy pyEqList ((sqlWhere table pred).map (fun r => gbc.map (rowGet r)))).mergeSort comboLe

/-- The cell the `CASE WHEN <pivot cols = combo> THEN <measure> END`
expression produces for one row (`NULL` when the row is outside the
combo). -/
def sqlCaseCell (gbc : List String) (combo : List Value) (measure : String)
    (r : Row) : Value :=
  if pyEqList (gbc.map (rowGet r)) combo then rowGet r measure else .null

/-- Pass 2 of `SQLAlchemyProvider._pivot_aggregate`: group the filtered
rows by the row dims and evaluate every `(combo × measure)` `CASE`
aggregate, producing dense rows keyed by the constructed column keys. -/
def sqlPivotAggregate (table : List Row) (lookup : List String)
    (gbr gbc : List String) (values : List ValueSpec)
    (fg : Option FilterGroup := none) (sort : Option (List SortSpec) := none)
    (limit : Option Nat := none) (offset : Nat := 0) :
    Except PyError AggregateResult :=
  match compileOptFilter fg lookup with
  | .error e => .error e
  | .ok pred =>
  match gbc.find? (fun c => !(lookup.contains c)) with
  | some c => .error (.keyError c)
  | none =>
  match gbr.find? (fun c => !(lookup.contains c)) with
  | some c => .error (.keyError c)
  | none =>
  match values.find? (fun vs => !(lookup.contains vs.column)) with
  | some vs => .error (.keyError vs.column)
  | none =>
  let combos := sqlDiscoverCombos table pred gbc
  let resultColumns :=
    gbr.map dimColumn ++
      combos.flatMap (fun combo => values.map (pivotColumn combo))
  let filtered := sqlWhere table pred
  let total := (sqlGroups filtered gbr).length
  let dataRows := (sqlGroups filtered gbr).map (fun key =>
    let grp := sqlGroupRows filtered gbr key
    gbr.zip key ++
      combos.flatMap (fun combo =>
        values.map (fun vs =>
          (pivotColKey combo vs,
            sqlComputeAgg vs.agg (grp.map (sqlCaseCell gbc combo vs.column))))))
  let dataRows := sqlApplySort dataRows sort
  let dataRows := sqlLimitOffset dataRows limit offset
  .ok { columns := resultColumns, rows := dataRows, total := total }

/-! ## Provider registry (sanjaya/registry.py) -/

/-- A registered data provider, reduced to what the registry observes: its
`key` attribute, plus a tag distinguishing instances. -/
structure Provider : Type where
  key : String
  tag : Nat := 0
  deriving DecidableEq

/-- `ProviderRegistry` state: the eager map and the lazy map, modelled as
partial maps (Python dicts keyed by strings).  A lazy factory is a pure
zero-argument callable; it is modelled by the provider it returns, and
"the factory was invoked" is observable as its removal from the lazy
map. -/
structure Registry : Type where
  providers : String → Option Provider := fun _ => none
  lazy : String → Option Provider := fun _ => none

/-- Python dict assignment `m[k] = v`. -/
def mapSet (m : String → Option Provider) (k : String) (p : Provider) :
    String → Option Provider :=
  fun k' => if k' = k then some p else m k'

/-- Python `dict.pop(k)`. -/
def mapDel (m : String → Option Provider) (k : String) :
    String → Option Provider :=
  fun k' => if k' = k then none else m k'

/-- `ProviderRegistry.get`: eager hit, else materialise from the lazy map —
`pop` the factory under the requested key, call it, and cache the result
under the provider's **own** key — else `DatasetNotFoundError`. -/
def registryGet (s : Registry) (k : String) : Except PyError (Provider × Registry) :=
  match s.providers k with
  | some p => .ok (p, s)
  | none =>
    match s.lazy k with
    | some p =>
        .ok (p, { providers := mapSet s.providers p.key p,
                  lazy := mapDel s.lazy k })
    | none => .error (.datasetNotFound k)

/-! ## Grid translator dispatch (sanjaya/services/pivot.py,
sanjaya_django/api/pivot.py) -/

/-- `ColumnVO` (schemas/pivot.py): a grid column reference. -/
structure ColumnVO : Type where
  id : String
  displayName : String
  field : Option String := none
  aggFunc : Option AggFunc := none
  deriving DecidableEq

/-- `c.field or c.id` — Python `or`, so an empty-string `field` also falls
back to `id`. -/
def colField (c : ColumnVO) : String :=
  match c.field with
  | some f => if f = "" then c.id else f
  | none => c.id

/-- One `sortModel` entry (`colId` plus the wire string `"asc"`/`"desc"`). -/
structure SortModelItem : Type where
  colId : String
  sort : String
  deriving DecidableEq

/-- `ServerSideGetRowsRequest` (schemas/pivot.py).  The raw `filterModel`
dict is represented by the `FilterGroup` option that
`parse_ag_grid_filter_model` produces from it (`none` for an empty or
absent model); the claims settled here do not depend on the dict-to-group
translation itself. -/
structure SSRMRequest : Type where
  startRow : Int
  endRow : Int
  rowGroupCols : List ColumnVO
  groupKeys : List String
  valueCols : List ColumnVO
  pivotCols : List ColumnVO
  pivotMode : Bool
  sortModel : List SortModelItem := []
  filterModel : Option FilterGroup := none

/-- The provider call `handle_ssrm_request` ends up issuing. -/
inductive ProviderCall : Type where
  | query (cols : List String) (fg : Option FilterGroup)
      (sort : Option (List SortSpec)) (limit offset : Int)
  | aggregate (gbr gbc : List String) (values : List ValueSpec)
      (fg : Option FilterGroup) (sort : Option (List SortSpec))
      (limit offset : Int)

/-- `handle_ssrm_request` (sanjaya/services/pivot.py) up to the provider
call: resolve the filter, inject `groupKeys` equality conditions, pick the
next row-group level, translate pivot/value/sort/pagination fields, and
dispatch to `query` (leaf, no pivot) or `aggregate`.  `providerColumns`
stands for `[c.name for c in provider.get_columns()]`. -/
def handleSSRM (providerColumns : List String) (req : SSRMRequest) : ProviderCall :=
  let fg0 := req.filterModel
  let fg :=
    if req.groupKeys.isEmpty then fg0
    else
      let gkConds := (req.groupKeys.zip req.rowGroupCols).map (fun e =>
        { column := colField e.2, operator := .eq, value := .str e.1 : FilterCondition })
      let gkGroup : FilterGroup := .mk .and false gkConds []
      match fg0 with
      | some f => some (.mk .and false [] [f, gkGroup])
      | none => some gkGroup
  let depth := req.groupKeys.length
  let allRowGroupFields := req.rowGroupCols.map colField
  let groupByRows :=
    match allRowGroupFields.get? depth with
    | some f => [f]
    | none => []
  let groupByCols :=
    if req.pivotMode && !req.pivotCols.isEmpty then req.pivotCols.map colField
    else []
  let values := req.valueCols.map (fun c =>
    { column := colField c, agg := c.aggFunc.getD .sum,
      label := some c.displayName : ValueSpec })
  let sort : Option (List SortSpec) :=
    if req.sortModel.isEmpty then none
    else some (req.sortModel.map (fun s =>
      { column := s.colId,
        direction := if s.sort = "desc" then .desc else .asc }))
  let limit := req.endRow - req.startRow
  let offset := req.startRow
  if groupByRows.isEmpty && groupByCols.isEmpty then
    let selectCols :=
      if req.valueCols.isEmpty then providerColumns
      else req.valueCols.map colField
    let selectCols := allRowGroupFields.foldl (fun acc f =>
      if acc.contains f then acc else f :: acc) selectCols
    .query selectCols fg sort limit offset
  else
    .aggregate groupByRows groupByCols values fg sort limit offset

/-- The outcome of the pivot endpoint (sanjaya_django/api/pivot.py) after
authentication and registry lookup: either the 501 `not_supported`
rejection, or the translated provider call. -/
inductive PivotOutcome : Type where
  | notSupported
  | handled (call : ProviderCall)

/-- The pivot view's capability gate followed by the translator:
`if body.pivot_mode and not provider.capabilities.pivot: return 501`,
otherwise `handle_ssrm_request(provider, body)`. -/
def pivotEndpoint (capPivot : Bool) (providerColumns : List String)
    (body : SSRMRequest) : PivotOutcome :=
  if body.pivotMode && !capPivot then .notSupported
  else .handled (handleSSRM providerColumns body)

/-! ## Filter-group JSON serialisation (sanjaya_core/filters.py)

`FilterCondition`/`FilterGroup` are Pydantic models with a `mode="before"`
validator accepting `"not"` as an alias for `negate`, and a `model_dump`
override renaming `negate` back to `"not"` at every level (the rename pops
the key and re-inserts it, so the dumped dicts carry `"not"` as their last
key).  The parser modelled here is strict where Pydantic would coerce
(booleans must be JSON booleans, strings must be JSON strings); JSON
object payloads inside a condition's `value` are not modelled. -/

/-- A JSON value (objects keep key order, as Python dicts do). -/
inductive Json : Type where
  | null : Json
  | bool (b : Bool) : Json
  | num (q : ℚ) : Json
  | str (s : String) : Json
  | arr (xs : List Json) : Json
  | obj (kvs : List (String × Json)) : Json

/-- First-match key lookup in a JSON object. -/
def jLookup : List (String × Json) → String → Option Json
  | [], _ => none
  | (k, v) :: rest, key => if k == key then some v else jLookup rest key

mutual
/-- Read a JSON value as a condition/group payload `Value` (JSON objects
are not modelled as payloads). -/
def jsonToValue : Json → Option Value
  | .null => some .null
  | .bool b => some (.bool b)
  | .num q => some (.num q)
  | .str s => some (.str s)
  | .arr xs => (jsonToValueList xs).map .list
  | .obj _ => none

/-- Read a JSON array elementwise. -/
def jsonToValueList : List Json → Option (List Value)
  | [] => some []
  | x :: xs => do
      let v ← jsonToValue x
      let vs ← jsonToValueList xs
      pure (v :: vs)
end

mutual
/-- Serialise a payload `Value` back to JSON. -/
def valueToJson : Value → Json
  | .null => .null
  | .bool b => .bool b
  | .num q => .num q
  | .str s => .str s
  | .list vs => .arr (valueToJsonList vs)

/-- Serialise a value list elementwise. -/
def valueToJsonList : List Value → List Json
  | [] => []
  | v :: vs => valueToJson v :: valueToJsonList vs
end

/-- Wire strings of `FilterOperator` (the `StrEnum` values). -/
def opWire : FilterOperator → String
  | .eq => "eq"
  | .neq => "neq"
  | .gt => "gt"
  | .lt => "lt"
  | .gte => "gte"
  | .lte => "lte"
  | .contains => "contains"
  | .startswith => "startswith"
  | .endswith => "endswith"
  | .isNull => "isNull"
  | .isNotNull => "isNotNull"
  | .between => "between"
  | .inOp => "in"

/-- Parse a `FilterOperator` wire string. -/
def parseOperator : String → Option FilterOperator
  | "eq" => some .eq
  | "neq" => some .neq
  | "gt" => some .gt
  | "lt" => some .lt
  | "gte" => some .gte
  | "lte" => some .lte
  | "contains" => some .contains
  | "startswith" => some .startswith
  | "endswith" => some .endswith
  | "isNull" => some .isNull
  | "isNotNull" => some .isNotNull
  | "between" => some .between
  | "in" => some .inOp
  | _ => none

/-- Wire strings of `FilterCombinator`. -/
def combWire : FilterCombinator → String
  | .and => "and"
  | .or => "or"

/-- Parse a `FilterCombinator` wire string. -/
def parseCombinator : String → Option FilterCombinator
  | "and" => some .and
  | "or" => some .or
  | _ => none

/-- The effect of `_accept_not_alias` on the `negate` field: an explicit
`negate` key wins, otherwise a `"not"` key supplies the value, otherwise
the field defaults to `False`. -/
def negateField (kvs : List (String × Json)) : Option Bool :=
  match jLookup kvs "negate" with
  | some (.bool b) => some b
  | some _ => none
  | none =>
      match jLookup kvs "not" with
      | some (.bool b) => some b
      | some _ => none
      | none => some false

/-- Parse one condition object (`FilterCondition.model_validate`): required
`column` and `operator`, optional `value` (default `None`), `negate` with
the `"not"` alias; unknown keys are ignored. -/
def parseCondition : Json → Option FilterCondition
  | .obj kvs => do
      let column ←
        match jLookup kvs "column" with
        | some (.str s) => some s
        | _ => none
      let operator ←
        match jLookup kvs "operator" with
        | some (.str s) => parseOperator s
        | _ => none
      let value ←
        match jLookup kvs "value" with
        | some j => jsonToValue j
        | none => some Value.null
      let negate ← negateField kvs
      pure { column := column, operator := operator, value := value, negate := negate }
  | _ => none

/-- Parse a homogeneous list of condition objects. -/
def parseConditionList : List Json → Option (List FilterCondition)
  | [] => some []
  | x :: xs => do
      let c ← parseCondition x
      let cs ← parseConditionList xs
      pure (c :: cs)

theorem jLookup_sizeOf : ∀ {kvs : List (String × Json)} {key : String} {v : Json},
    jLookup kvs key = some v → sizeOf v < sizeOf kvs
  | (k, w) :: rest, key, v, h => by
    by_cases hk : (k == key) = true
    · simp [jLookup, hk] at h
      subst h
      simp
      omega
    · simp [jLookup, hk] at h
      have := jLookup_sizeOf h
      simp
      omega

mutual
/-- Parse one group object (`FilterGroup.model_validate`): optional
`combinator` (default `and`), optional `conditions` and `groups` (default
empty), `negate` with the `"not"` alias. -/
def parseGroup : Json → Option FilterGroup
  | .obj kvs =>
      let combinatorJ :=
        match jLookup kvs "combinator" with
        | some (.str s) => parseCombinator s
        | some _ => none
        | none => some .and
      match combinatorJ with
      | none => none
      | some comb =>
        match negateField kvs with
        | none => none
        | some neg =>
          let condsJ :=
            match jLookup kvs "conditions" with
            | some (.arr xs) => parseConditionList xs
            | some _ => none
            | none => some []
          match condsJ with
          | none => none
          | some conds =>
            match h : jLookup kvs "groups" with
            | some (.arr gs) =>
                match parseGroupList gs with
                | none => none
                | some subs => some (.mk comb neg conds subs)
            | some _ => none
            | none => some (.mk comb neg conds [])
  | _ => none
  termination_by j => sizeOf j
  decreasing_by
    have h1 := jLookup_sizeOf h
    simp at h1 ⊢
    omega

/-- Parse a homogeneous list of group objects. -/
def parseGroupList : List Json → Option (List FilterGroup)
  | [] => some []
  | x :: xs =>
      match parseGroup x with
      | none => none
      | some g =>
        match parseGroupList xs with
        | none => none
        | some gs => some (g :: gs)
  termination_by xs => sizeOf xs
  decreasing_by
    all_goals first
      | (simp; omega)
      | simp
      | omega
end

/-- `FilterCondition.model_dump(by_alias=True)`: field order `column`,
`operator`, `value`, then the popped-and-renamed `"not"` last. -/
def dumpCondition (c : FilterCondition) : Json :=
  .obj [("column", .str c.column), ("operator", .str (opWire c.operator)),
        ("value", valueToJson c.value), ("not", .bool c.negate)]

mutual
/-- `FilterGroup.model_dump(by_alias=True)` with `_negate_to_not` applied
recursively: field order `combinator`, `conditions`, `groups`, then the
renamed `"not"` last at every level. -/
def dumpGroup : FilterGroup → Json
  | .mk comb neg conds gs =>
      .obj [("combinator", .str (combWire comb)),
            ("conditions", .arr (conds.map dumpCondition)),
            ("groups", .arr (dumpGroupList gs)),
            ("not", .bool neg)]

/-- Dump a list of nested groups. -/
def dumpGroupList : List FilterGroup → List Json
  | [] => []
  | g :: gs => dumpGroup g :: dumpGroupList gs
end

mutual
/-- `true` iff no object anywhere in the JSON value uses the given key
(used to state that dumps contain no `negate` key). -/
def jsonNoKey (key : String) : Json → Bool
  | .obj kvs => jsonNoKeyKvs key kvs
  | .arr xs => jsonNoKeyList key xs
  | _ => true

/-- Array version of `jsonNoKey`. -/
def jsonNoKeyList (key : String) : List Json → Bool
  | [] => true
  | x :: xs => jsonNoKey key x && jsonNoKeyList key xs

/-- Object-entries version of `jsonNoKey`. -/
def jsonNoKeyKvs (key : String) : List (String × Json) → Bool
  | [] => true
  | (k, v) :: rest => k != key && jsonNoKey key v && jsonNoKeyKvs key rest
end

/-! ## Claim C2 — `limit = 0` means "no limit" -/

/-- C2: for the in-memory provider, `limit = 0` applies no limit — the
result holds every filtered row after the offset, and `total` is the full
match count.  The SQL provider violates this: it renders `LIMIT 0`, so on
a three-row table `query(…, limit=0)` returns zero rows while reporting
`total = 3` — the export path (`_flat_export` passes `limit=0` with the
comment "0 = no limit — fetch everything") and the spec document the
mock's behaviour as the intended one. -/
theorem limit_zero_mock_unbounded_sql_empty :
    (∀ (data : List Row) (sel : List String) (fg : Option FilterGroup)
        (sort : Option (List SortSpec)) (offset : Nat),
      (mockQuery data sel fg sort 0 offset).rows =
        project ((applySort (applyFilter data fg) sort).drop offset) sel ∧
      (mockQuery data sel fg sort 0 offset).total = (applyFilter data fg).length) ∧
    (sqlQuery [[("x", Value.num 1)], [("x", Value.num 2)], [("x", Value.num 3)]]
        ["x"] ["x"] none none 0 0) =
      .ok { columns := ["x"], rows := [], total := 3 } := by
  constructor
  · intro data sel fg sort offset
    exact ⟨rfl, rfl⟩
  · rfl

/-! ## Claim C4 — unknown column in the SQL filter compiler -/

mutual
/-- The filter tree contains a condition whose column is missing from the
compiler's lookup. -/
def hasMissingColumn (lookup : List String) : FilterGroup → Bool
  | .mk _ _ conds gs =>
      conds.any (fun c => !(lookup.contains c.column)) ||
        hasMissingColumnList lookup gs

/-- List version of `hasMissingColumn`. -/
def hasMissingColumnList (lookup : List String) : List FilterGroup → Bool
  | [] => false
  | g :: gs => hasMissingColumn lookup g || hasMissingColumnList lookup gs
end

/-- A successful condition compilation implies the column was found. -/
theorem compileCondition_ok_contains {lookup : List String}
    {c : FilterCondition} {p : SqlPred}
    (h : compileCondition lookup c = .ok p) : lookup.contains c.column = true := by
  by_cases hc : c.column ∈ lookup
  · simpa using hc
  · exfalso
    rw [compileCondition] at h
    simp [hc] at h

/-- A successful condition-list compilation implies every column was
found. -/
theorem compileConditions_ok_contains {lookup : List String} :
    ∀ {conds : List FilterCondition} {ps : List SqlPred},
      compileConditions lookup conds = .ok ps →
        ∀ c ∈ conds, lookup.contains c.column = true := by
  intro conds
  induction conds with
  | nil => intro ps _ c hc; cases hc
  | cons c cs ih =>
    intro ps h c' hc'
    rw [compileConditions] at h
    rcases hp : compileCondition lookup c with e | p₀
    · rw [hp] at h; simp [Bind.bind, Except.bind] at h
    · rcases hps : compileConditions lookup cs with e | ps₀
      · rw [hp, hps] at h; simp [Bind.bind, Except.bind] at h
      · rcases List.mem_cons.mp hc' with rfl | hmem
        · exact compileCondition_ok_contains hp
        · exact ih hps c' hmem

mutual
/-- A successful group compilation implies no condition anywhere in the
tree referenced a missing column. -/
theorem compileFilterGroup_ok_no_missing :
    ∀ (g : FilterGroup) (lookup : List String) (p : SqlPred),
      compileFilterGroup g lookup = .ok p → hasMissingColumn lookup g = false
  | .mk comb neg conds gs, lookup, p, h => by
    rw [compileFilterGroup] at h
    rcases hcs : compileConditions lookup conds with e | ps
    · rw [hcs] at h; simp [Bind.bind, Except.bind] at h
    · rcases hgs : compileGroups gs lookup with e | qs
      · rw [hcs, hgs] at h; simp [Bind.bind, Except.bind] at h
      · rw [hasMissingColumn]
        have h1 : ∀ c ∈ conds, lookup.contains c.column = true :=
          compileConditions_ok_contains hcs
        have h2 : hasMissingColumnList lookup gs = false :=
          compileGroups_ok_no_missing gs lookup qs hgs
        simp only [Bool.or_eq_false_iff, List.any_eq_false]
        refine ⟨fun c hc => ?_, h2⟩
        have := h1 c hc
        simpa using this

/-- List version of `compileFilterGroup_ok_no_missing`. -/
theorem compileGroups_ok_no_missing :
    ∀ (gs : List FilterGroup) (lookup : List String) (qs : List SqlPred),
      compileGroups gs lookup = .ok qs →
        hasMissingColumnList lookup gs = false
  | [], _, _, _ => rfl
  | g₀ :: rest, lookup, qs, h => by
    rw [compileGroups] at h
    rcases hp : compileFilterGroup g₀ lookup with e | p₀
    · rw [hp] at h; simp [Bind.bind, Except.bind] at h
    · rcases hps : compileGroups rest lookup with e | ps₀
      · rw [hp, hps] at h; simp [Bind.bind, Except.bind] at h
      · rw [hasMissingColumnList]
        rw [compileFilterGroup_ok_no_missing g₀ lookup p₀ hp,
          compileGroups_ok_no_missing rest lookup ps₀ hps]
        rfl
end

/-- C4 counterexample: compiling a group whose single condition references
the unknown column `"ghost"` fails with Python's `KeyError` — not with
`FilterValidationError` as the claim states (the compiler's docstring
itself documents `KeyError`; `FilterValidationError` is never raised
anywhere in the code base). -/
theorem compile_unknown_column_keyerror_not_validation :
    compileFilterGroup
        (.mk .and false [{ column := "ghost", operator := .eq, value := .num 1 }] [])
        ["a", "b"] = .error (.keyError "ghost") ∧
    ∀ msg, compileFilterGroup
        (.mk .and false [{ column := "ghost", operator := .eq, value := .num 1 }] [])
        ["a", "b"] ≠ .error (.filterValidation msg) := by
  refine ⟨rfl, ?_⟩
  intro msg h
  rw [show compileFilterGroup
        (.mk .and false [{ column := "ghost", operator := .eq, value := .num 1 }] [])
        ["a", "b"] = .error (.keyError "ghost") from rfl] at h
  simp at h

/-- C4 (amended): a condition whose column is missing from the compiler's
column lookup makes `_compile_condition` fail with `KeyError` on that
column; consequently a group containing such a condition anywhere in its
tree never compiles successfully.  The failure is Python's `KeyError` (as
the compiler's docstring documents), not `FilterValidationError`. -/
theorem compile_missing_column_fails (lookup : List String) :
    (∀ c : FilterCondition, lookup.contains c.column = false →
        compileCondition lookup c = .error (.keyError c.column)) ∧
    (∀ g : FilterGroup, hasMissingColumn lookup g = true →
        ∀ p, compileFilterGroup g lookup ≠ .ok p) := by
  constructor
  · intro c hc
    have hc' : ¬ (c.column ∈ lookup) := by simpa using hc
    rw [compileCondition]
    simp [hc']
  · intro g hg p hok
    rw [compileFilterGroup_ok_no_missing g lookup p hok] at hg
    cases hg

/-- C4 witness: the amended theorem applied at a concrete `"ghost"`
condition and at a concrete group containing it. -/
theorem compile_missing_column_fails_witness :
    (List.contains ["a", "b"] "ghost" = false ∧
      compileCondition ["a", "b"] { column := "ghost", operator := .gt, value := .num 2 } =
        .error (.keyError "ghost")) ∧
    (hasMissingColumn ["a", "b"]
        (.mk .or true [] [.mk .and false [{ column := "ghost", operator := .gt, value := .num 2 }] []]) = true ∧
      ∀ p, compileFilterGroup
          (.mk .or true [] [.mk .and false [{ column := "ghost", operator := .gt, value := .num 2 }] []])
          ["a", "b"] ≠ .ok p) :=
  ⟨⟨by decide,
      (compile_missing_column_fails ["a", "b"]).1
        { column := "ghost", operator := .gt, value := .num 2 } (by decide)⟩,
    ⟨by decide,
      (compile_missing_column_fails ["a", "b"]).2
        (.mk .or true [] [.mk .and false [{ column := "ghost", operator := .gt, value := .num 2 }] []])
        (by decide)⟩⟩

/-! ## Claim C5 — pivot requests against a non-pivot dataset -/

/-- C5 counterexample: a request whose pivot-column list is non-empty but
whose `pivotMode` flag is `false`, against a dataset with
`capabilities.pivot = false`, is **not** rejected — the endpoint's guard
tests `body.pivot_mode`, not the pivot-column list, so the translator runs
and the provider is called (here with a flat query). -/
theorem pivot_cols_without_mode_not_rejected :
    ({ startRow := 0, endRow := 10, rowGroupCols := [], groupKeys := [],
        valueCols := [], pivotCols := [{ id := "p", displayName := "P" }],
        pivotMode := false : SSRMRequest }).pivotCols ≠ [] ∧
    pivotEndpoint false ["p", "a"]
        { startRow := 0, endRow := 10, rowGroupCols := [], groupKeys := [],
          valueCols := [], pivotCols := [{ id := "p", displayName := "P" }],
          pivotMode := false } ≠ .notSupported ∧
    pivotEndpoint false ["p", "a"]
        { startRow := 0, endRow := 10, rowGroupCols := [], groupKeys := [],
          valueCols := [], pivotCols := [{ id := "p", displayName := "P" }],
          pivotMode := false } =
      .handled (.query ["p", "a"] none none 10 0) := by
  refine ⟨by simp, ?_, rfl⟩
  intro h
  rw [show pivotEndpoint false ["p", "a"]
        { startRow := 0, endRow := 10, rowGroupCols := [], groupKeys := [],
          valueCols := [], pivotCols := [{ id := "p", displayName := "P" }],
          pivotMode := false } =
      .handled (.query ["p", "a"] none none 10 0) from rfl] at h
  cases h

/-- C5 (amended): the capability gate keys on the `pivotMode` flag — a
request with `pivotMode` set against a dataset with
`capabilities.pivot = false` is rejected with `not_supported` before the
translator or provider runs; with `pivotMode` unset the request is never
rejected, its pivot columns are ignored, and any aggregate dispatched has
empty `group_by_cols`. -/
theorem pivot_capability_gate (cap : Bool) (cols : List String)
    (body : SSRMRequest) :
    (body.pivotMode = true → cap = false →
      pivotEndpoint cap cols body = .notSupported) ∧
    (body.pivotMode = false →
      pivotEndpoint cap cols body = .handled (handleSSRM cols body) ∧
      match handleSSRM cols body with
      | .aggregate _ gbc _ _ _ _ _ => gbc = []
      | _ => True) := by
  constructor
  · intro hm hc
    rw [pivotEndpoint, hm, hc]
    rfl
  · intro hm
    constructor
    · rw [pivotEndpoint, hm]
      rfl
    · rw [handleSSRM, hm]
      simp only [Bool.false_and, Bool.false_eq_true, if_false]
      split
      · rename_i heq
        split at heq
        · cases heq
        · cases heq
          rfl
      · trivial

/-- C5 witness: the amended theorem applied to a pivot-mode request on a
non-pivot dataset and to a pivot-column request without pivot mode. -/
theorem pivot_capability_gate_witness :
    ({ startRow := 0, endRow := 10, rowGroupCols := [], groupKeys := [],
        valueCols := [], pivotCols := [{ id := "p", displayName := "P" }],
        pivotMode := true : SSRMRequest }).pivotMode = true ∧
    pivotEndpoint false ["p", "a"]
        { startRow := 0, endRow := 10, rowGroupCols := [], groupKeys := [],
          valueCols := [], pivotCols := [{ id := "p", displayName := "P" }],
          pivotMode := true } = .notSupported :=
  ⟨rfl,
    (pivot_capability_gate false ["p", "a"]
      { startRow := 0, endRow := 10, rowGroupCols := [], groupKeys := [],
        valueCols := [], pivotCols := [{ id := "p", displayName := "P" }],
        pivotMode := true }).1 rfl rfl⟩

/-! ## Claim C10 — registry lazy materialisation -/

/-- C10: the first successful `get(k)` on a lazy entry removes the factory
from the lazy map (so it is invoked exactly once — no later call can reach
it), returns its provider, and caches it in the eager map under the
provider's **own** key.  A later `get(k)` returns the same cached instance
without re-invoking the factory iff the provider's key equals `k`; when
the keys differ, `get(k)` raises `DatasetNotFoundError` even though the
provider is registered under its own key. -/
theorem registry_lazy_get (s : Registry) (k : String) (p : Provider)
    (hEager : s.providers k = none) (hLazy : s.lazy k = some p) :
    ∃ s' : Registry,
      registryGet s k = .ok (p, s') ∧
      s'.lazy k = none ∧
      s'.providers p.key = some p ∧
      (p.key = k → registryGet s' k = .ok (p, s')) ∧
      (p.key ≠ k → registryGet s' k = .error (.datasetNotFound k)) := by
  refine ⟨{ providers := mapSet s.providers p.key p, lazy := mapDel s.lazy k },
    ?_, ?_, ?_, ?_, ?_⟩
  · rw [registryGet, hEager, hLazy]
  · simp [mapDel]
  · simp [mapSet]
  · intro hk
    subst hk
    rw [registryGet]
    simp [mapSet]
  · intro hk
    have hk' : ¬ (k = p.key) := fun h => hk h.symm
    rw [registryGet]
    simp [mapSet, mapDel, hk', hEager]

/-- C10 witness: run the theorem on a concrete registry holding one lazy
entry under `"k"` whose factory builds a provider keyed `"k2"`. -/
theorem registry_lazy_get_witness :
    ((fun k' => if k' = "k" then some { key := "k2", tag := 7 : Provider } else none) "k" =
        some { key := "k2", tag := 7 : Provider }) ∧
    ∃ s' : Registry,
      registryGet
          { providers := fun _ => none,
            lazy := fun k' => if k' = "k" then some { key := "k2", tag := 7 } else none }
          "k" = .ok ({ key := "k2", tag := 7 }, s') ∧
      s'.lazy "k" = none ∧
      s'.providers "k2" = some { key := "k2", tag := 7 } ∧
      (({ key := "k2", tag := 7 } : Provider).key = "k" →
        registryGet s' "k" = .ok ({ key := "k2", tag := 7 }, s')) ∧
      (({ key := "k2", tag := 7 } : Provider).key ≠ "k" →
        registryGet s' "k" = .error (.datasetNotFound "k")) :=
  ⟨by simp,
    registry_lazy_get
      { providers := fun _ => none,
        lazy := fun k' => if k' = "k" then some { key := "k2", tag := 7 } else none }
      "k" { key := "k2", tag := 7 } rfl (by simp)⟩

/-! ## Claim C3 — unknown selected columns -/

/-- Iterated stable sorting only permutes rows. -/
theorem mem_applySortSpecs {r : Row} {rows : List Row} :
    ∀ {specs : List SortSpec}, r ∈ applySortSpecs specs rows ↔ r ∈ rows
  | [] => Iff.rfl
  | _ :: rest => by
      rw [applySortSpecs, List.mem_mergeSort]
      exact mem_applySortSpecs

/-- `_apply_sort` only permutes rows. -/
theorem mem_applySort {r : Row} {rows : List Row}
    {sort : Option (List SortSpec)} (h : r ∈ applySort rows sort) : r ∈ rows := by
  match sort with
  | none => exact h
  | some [] => exact h
  | some (s :: specs) => exact mem_applySortSpecs.mp h

/-- The pagination slice keeps a subset of the rows. -/
theorem mem_sliceLimit {r : Row} {rows : List Row} {limit offset : Nat}
    (h : r ∈ sliceLimit rows limit offset) : r ∈ rows := by
  rw [sliceLimit] at h
  split at h
  · exact List.mem_of_mem_drop h
  · exact List.mem_of_mem_drop (List.mem_of_mem_take h)

/-- C3 counterexample: neither provider raises `ColumnNotFoundError` on an
unknown selected column.  The in-memory provider does not validate at all:
selecting the unknown `"ghost"` from a one-row dataset succeeds and
produces a row with a null `"ghost"` cell.  The SQL provider fails before
issuing SQL, but with Python's `KeyError` from the column-lookup dict, not
with `ColumnNotFoundError`. -/
theorem query_unknown_column_no_columnnotfound :
    (mockQuery [[("a", Value.num 1)]] ["ghost"]).rows = [[("ghost", Value.null)]] ∧
    (mockQuery [[("a", Value.num 1)]] ["ghost"]).total = 1 ∧
    sqlQuery [[("a", Value.num 1)]] ["a"] ["ghost"] = .error (.keyError "ghost") ∧
    sqlQuery [[("a", Value.num 1)]] ["a"] ["ghost"] ≠ .error (.columnNotFound "ghost") := by
  refine ⟨rfl, rfl, rfl, ?_⟩
  intro h
  rw [show sqlQuery [[("a", Value.num 1)]] ["a"] ["ghost"] = .error (.keyError "ghost")
    from rfl] at h
  simp at h

/-- C3 (amended): an unknown name in `selected_columns` is not validated
against `get_columns` by either provider.  The in-memory provider returns
normally, projecting the unknown column to a null cell in every result
row; the SQL provider fails with `KeyError` from its column lookup before
any SQL executes (the error depends only on the lookup, not on the table
data).  `ColumnNotFoundError` is never raised. -/
theorem query_unknown_column_behaviour
    (data table : List Row) (lookup sel : List String)
    (sort : Option (List SortSpec)) (limit offset : Nat) (c : String)
    (hmiss : ∀ r ∈ data, r.lookup c = none) (hsel : c ∈ sel) :
    (∀ row ∈ (mockQuery data sel none sort limit offset).rows, (c, Value.null) ∈ row) ∧
    (sel.find? (fun c' => !(lookup.contains c')) = some c →
      sqlQuery table lookup sel none sort limit offset = .error (.keyError c)) := by
  constructor
  · intro row hrow
    have hrow' : row ∈ project (sliceLimit (applySort data sort) limit offset) sel := hrow
    rw [project] at hrow'
    rcases List.mem_map.mp hrow' with ⟨r, hr, rfl⟩
    have hrdata : r ∈ data := mem_applySort (mem_sliceLimit hr)
    refine List.mem_map.mpr ⟨c, hsel, ?_⟩
    rw [rowGet, hmiss r hrdata]
    rfl
  · intro hfind
    rw [sqlQuery]
    rw [show compileOptFilter none lookup = .ok none from rfl, hfind]

/-- C3 witness: the amended theorem applied to a concrete dataset, table
and selection containing the unknown column `"ghost"`. -/
theorem query_unknown_column_behaviour_witness :
    ((∀ r ∈ [[("a", Value.num 1)]], List.lookup "ghost" r = none) ∧ "ghost" ∈ ["ghost"]) ∧
    ((∀ row ∈ (mockQuery [[("a", Value.num 1)]] ["ghost"] none none 100 0).rows,
        ("ghost", Value.null) ∈ row) ∧
      (["ghost"].find? (fun c' => !(List.contains ["a"] c')) = some "ghost" →
        sqlQuery [[("a", Value.num 1)]] ["a"] ["ghost"] none none 100 0 =
          .error (.keyError "ghost"))) :=
  have hmiss : ∀ r ∈ [[("a", Value.num 1)]], List.lookup "ghost" r = none := by
    intro r hr
    rw [List.mem_singleton] at hr
    subst hr
    rfl
  ⟨⟨hmiss, by decide⟩,
    query_unknown_column_behaviour [[("a", Value.num 1)]] [[("a", Value.num 1)]]
      ["a"] ["ghost"] none 100 0 "ghost" hmiss (by decide)⟩

/-! ## Claim C7 — aggregate rows are keyed by descriptor keys -/

/-- Keys appearing in `bucketsAdd` output come from the old buckets or are
the inserted key. -/
theorem bucketsAdd_key_mem {bs : List (List Value × List Row)}
    {k : List Value} {r : Row} :
    ∀ e ∈ bucketsAdd bs k r, e.1 ∈ bs.map Prod.fst ∨ e.1 = k := by
  induction bs with
  | nil =>
    intro e he
    rw [bucketsAdd] at he
    rcases List.mem_singleton.mp he with rfl
    exact Or.inr rfl
  | cons b rest ih =>
    intro e he
    rw [bucketsAdd] at he
    split at he
    · rcases List.mem_cons.mp he with rfl | hmem
      · exact Or.inl (List.mem_cons_self _ _)
      · exact Or.inl (List.mem_cons_of_mem _ (List.mem_map_of_mem Prod.fst hmem))
    · rcases List.mem_cons.mp he with rfl | hmem
      · exact Or.inl (List.mem_cons_self _ _)
      · rcases ih e hmem with h | h
        · exact Or.inl (List.mem_cons_of_mem _ h)
        · exact Or.inr h

/-- Invariant carried through the grouping fold: bucket keys are grouped
tuples of rows seen so far. -/
theorem buckets_go_key_mem (keys : List String) (rows : List Row) :
    ∀ (l : List Row) (bs : List (List Value × List Row)),
      (∀ e ∈ bs, ∃ r ∈ rows, e.1 = keys.map (rowGet r)) →
      (∀ r ∈ l, r ∈ rows) →
      ∀ e ∈ l.foldl (fun bs r => bucketsAdd bs (keys.map (rowGet r)) r) bs,
        ∃ r ∈ rows, e.1 = keys.map (rowGet r) := by
  intro l
  induction l with
  | nil => intro bs hbs _ e he; exact hbs e he
  | cons r rest ih =>
    intro bs hbs hl e he
    rw [List.foldl_cons] at he
    refine ih (bucketsAdd bs (keys.map (rowGet r)) r) ?_
      (fun x hx => hl x (List.mem_cons_of_mem _ hx)) e he
    intro e' he'
    rcases bucketsAdd_key_mem e' he' with h | h
    · rcases List.mem_map.mp h with ⟨b, hb, hfst⟩
      rcases hbs b hb with ⟨r', hr', hk⟩
      exact ⟨r', hr', by rw [← hfst, hk]⟩
    · exact ⟨r, hl r (List.mem_cons_self _ _), h⟩

/-- Every bucket key is the grouped-key tuple of some input row. -/
theorem buckets_key_mem {rows : List Row} {keys : List String} :
    ∀ e ∈ buckets rows keys, ∃ r ∈ rows, e.1 = keys.map (rowGet r) := by
  rw [buckets]
  exact buckets_go_key_mem keys rows rows []
    (by intro e he; cases he) (fun r hr => hr)

/-- Membership in a deduplicated list implies membership in the input. -/
theorem mem_of_mem_dedupBy {eq : α → α → Bool} :
    ∀ {l : List α} {x : α}, x ∈ dedupBy eq l → x ∈ l := by
  intro l
  induction l with
  | nil => intro x h; cases h
  | cons a rest ih =>
    intro x h
    rw [dedupBy] at h
    rcases List.mem_cons.mp h with rfl | hmem
    · exact List.mem_cons_self _ _
    · exact List.mem_cons_of_mem _ (ih (List.mem_of_mem_filter hmem))

mutual
/-- Canonical form for Python `==`: booleans collapse to their numeric
value, recursively in lists.  Two values are Python-equal iff their
canonical forms coincide. -/
def pyCanon : Value → Value
  | .null => .null
  | .bool b => .num (if b then 1 else 0)
  | .num q => .num q
  | .str s => .str s
  | .list vs => .list (pyCanonList vs)

/-- Elementwise canonical form. -/
def pyCanonList : List Value → List Value
  | [] => []
  | v :: vs => pyCanon v :: pyCanonList vs
end

theorem pyEq_iff_canon : ∀ a b : Value, pyEq a b = true ↔ pyCanon a = pyCanon b := by
  intro a
  refine @Value.rec (fun a => ∀ b, pyEq a b = true ↔ pyCanon a = pyCanon b)
    (fun l => ∀ bs, pyEqList l bs = true ↔ pyCanonList l = pyCanonList bs)
    ?_ ?_ ?_ ?_ ?_ ?_ ?_ a
  · intro b
    cases b <;> simp [pyEq, pyCanon, Value.asNum?]
  · intro a b
    cases b <;> simp [pyEq, pyCanon, Value.asNum?]
  · intro q b
    cases b <;> simp [pyEq, pyCanon, Value.asNum?]
  · intro s b
    cases b <;> simp [pyEq, pyCanon, Value.asNum?]
  · intro vs ih b
    cases b <;> simp [pyEq, pyCanon, Value.asNum?]
    exact ih _
  · intro bs
    cases bs <;> simp [pyEqList, pyCanonList]
  · intro v vs ihv ihvs bs
    cases bs with
    | nil => simp [pyEqList, pyCanonList]
    | cons b bs' =>
      simp [pyEqList, pyCanonList, ihv b, ihvs bs']

/-- Elementwise version of `pyEq_iff_canon`. -/
theorem pyEqList_iff_canon (a b : List Value) :
    pyEqList a b = true ↔ pyCanonList a = pyCanonList b := by
  induction a generalizing b with
  | nil => cases b <;> simp [pyEqList, pyCanonList]
  | cons v vs ih =>
    cases b with
    | nil => simp [pyEqList, pyCanonList]
    | cons w ws => simp [pyEqList, pyCanonList, pyEq_iff_canon v w, ih ws]

/-- Python `==` on tuples is reflexive. -/
theorem pyEqList_refl (a : List Value) : pyEqList a a = true :=
  (pyEqList_iff_canon a a).mpr rfl

/-- Python `==` on tuples is transitive. -/
theorem pyEqList_trans {a b c : List Value}
    (h1 : pyEqList a b = true) (h2 : pyEqList b c = true) : pyEqList a c = true :=
  (pyEqList_iff_canon a c).mpr
    ((pyEqList_iff_canon a b).mp h1 |>.trans ((pyEqList_iff_canon b c).mp h2))

/-- Every input element has a representative (under a reflexive and
transitive equality test) in the deduplicated list. -/
theorem exists_rep_dedupBy {eq : α → α → Bool}
    (hrefl : ∀ a, eq a a = true)
    (htrans : ∀ a b c, eq a b = true → eq b c = true → eq a c = true) :
    ∀ {l : List α} {x : α}, x ∈ l → ∃ y ∈ dedupBy eq l, eq y x = true := by
  intro l
  induction l with
  | nil => intro x h; cases h
  | cons a rest ih =>
    intro x h
    rcases List.mem_cons.mp h with rfl | hmem
    · refine ⟨x, ?_, hrefl x⟩
      rw [dedupBy]
      exact List.mem_cons_self _ _
    · rcases ih hmem with ⟨y, hy, hxy⟩
      by_cases hay : eq a y = true
      · refine ⟨a, ?_, htrans a y x hay hxy⟩
        rw [dedupBy]
        exact List.mem_cons_self _ _
      · refine ⟨y, ?_, hxy⟩
        rw [dedupBy]
        refine List.mem_cons_of_mem _ (List.mem_filter.mpr ⟨hy, ?_⟩)
        simp [hay]

/-- The aggregate pagination slice keeps a subset of the rows. -/
theorem mem_aggSlice {r : Row} {rows : List Row} {limit : Option Nat} {offset : Nat}
    (h : r ∈ aggSlice rows limit offset) : r ∈ rows := by
  rw [aggSlice.eq_def] at h
  split at h
  · split at h
    · exact List.mem_of_mem_drop h
    · exact List.mem_of_mem_drop (List.mem_of_mem_take h)
  · exact List.mem_of_mem_drop h

/-- The fold of stable sorts modelling `ORDER BY` only permutes rows. -/
theorem mem_sqlSortFold {r : Row} {rows : List Row} :
    ∀ {specs : List SortSpec},
      r ∈ specs.foldr (fun s acc => acc.mergeSort (sqlSpecLe s)) rows → r ∈ rows
  | [], h => h
  | _ :: _, h => by
      rw [List.foldr_cons, List.mem_mergeSort] at h
      exact mem_sqlSortFold h

/-- The modelled SQL `ORDER BY` only permutes rows. -/
theorem mem_sqlApplySort {r : Row} {rows : List Row}
    {sort : Option (List SortSpec)} (h : r ∈ sqlApplySort rows sort) : r ∈ rows := by
  match sort with
  | none => exact h
  | some [] => exact h
  | some (s :: specs) =>
      exact @mem_sqlSortFold _ _ (s :: specs) h

/-- Simple aggregation in the mock provider produces rows keyed exactly by
the descriptor keys, in order. -/
theorem mockSimple_row_keys (data : List Row) (gbr : List String)
    (values : List ValueSpec) (fg : Option FilterGroup)
    (sort : Option (List SortSpec)) (limit : Option Nat) (offset : Nat) :
    ∀ row ∈ (mockAggregate data gbr [] values fg sort limit offset).rows,
      row.map Prod.fst =
        (mockAggregate data gbr [] values fg sort limit offset).columns.map (·.key) := by
  intro row hrow
  have hrow' : row ∈ aggSlice (applySort
      ((buckets (applyFilter data fg) (gbr ++ [])).map (fun b =>
        gbr.zip b.1 ++ values.map (fun vs => (simpleAggKey vs, computeAgg vs.agg vs.column b.2))))
      sort) limit offset := hrow
  have hmem := mem_applySort (mem_aggSlice hrow')
  rcases List.mem_map.mp hmem with ⟨b, hb, rfl⟩
  have hcols : (mockAggregate data gbr [] values fg sort limit offset).columns =
      gbr.map dimColumn ++ values.map (fun vs =>
        { key := simpleAggKey vs, header := vs.label.getD (simpleAggKey vs),
          measure := some vs.column, agg := some vs.agg : AggregateColumn }) := rfl
  rw [hcols]
  rcases buckets_key_mem b hb with ⟨r, _, hk⟩
  have hlen : gbr.length ≤ b.1.length := by
    rw [hk, List.length_map, List.length_append]
    omega
  rw [List.map_append, List.map_append, List.map_fst_zip _ _ hlen,
    List.map_map, List.map_map, List.map_map]
  simp [Function.comp_def, dimColumn]

/-- The SQL pagination slice keeps a subset of the rows. -/
theorem mem_sqlLimitOffset {r : Row} {rows : List Row} {limit : Option Nat}
    {offset : Nat} (h : r ∈ sqlLimitOffset rows limit offset) : r ∈ rows := by
  rw [sqlLimitOffset.eq_def] at h
  split at h
  · exact List.mem_of_mem_drop (List.mem_of_mem_take h)
  · exact List.mem_of_mem_drop h

/-- Keys of one SQL `GROUP BY` tuple have the row-dimension length. -/
theorem sqlGroups_key_len {rows : List Row} {cols : List String} {key : List Value}
    (h : key ∈ sqlGroups rows cols) : key.length = cols.length := by
  rcases List.mem_map.mp (mem_of_mem_dedupBy h) with ⟨r, _, rfl⟩
  exact List.length_map _ _

/-- Simple aggregation in the SQL provider produces rows keyed exactly by
the descriptor keys, in order. -/
theorem sqlSimple_row_keys (table : List Row) (lookup gbr : List String)
    (values : List ValueSpec) (fg : Option FilterGroup)
    (sort : Option (List SortSpec)) (limit : Option Nat) (offset : Nat)
    (res : AggregateResult)
    (hok : sqlSimpleAggregate table lookup gbr values fg sort limit offset = .ok res) :
    ∀ row ∈ res.rows, row.map Prod.fst = res.columns.map (·.key) := by
  intro row hrow
  rw [sqlSimpleAggregate] at hok
  split at hok
  · cases hok
  · split at hok
    · cases hok
    · split at hok
      · cases hok
      · cases hok
        rcases List.mem_map.mp (mem_sqlApplySort (mem_sqlLimitOffset hrow))
          with ⟨key, hkey, rfl⟩
        have hlen : gbr.length ≤ key.length := by
          rw [sqlGroups_key_len hkey]
        rw [List.map_append, List.map_append, List.map_fst_zip _ _ hlen,
          List.map_map, List.map_map, List.map_map]
        simp [Function.comp_def, dimColumn]

/-- Pivot aggregation in the SQL provider produces dense rows keyed exactly
by the descriptor keys, in order. -/
theorem sqlPivot_row_keys (table : List Row) (lookup gbr gbc : List String)
    (values : List ValueSpec) (fg : Option FilterGroup)
    (sort : Option (List SortSpec)) (limit : Option Nat) (offset : Nat)
    (res : AggregateResult)
    (hok : sqlPivotAggregate table lookup gbr gbc values fg sort limit offset = .ok res) :
    ∀ row ∈ res.rows, row.map Prod.fst = res.columns.map (·.key) := by
  intro row hrow
  rw [sqlPivotAggregate] at hok
  split at hok
  · cases hok
  · split at hok
    · cases hok
    · split at hok
      · cases hok
      · split at hok
        · cases hok
        · cases hok
          rcases List.mem_map.mp (mem_sqlApplySort (mem_sqlLimitOffset hrow))
            with ⟨key, hkey, rfl⟩
          have hlen : gbr.length ≤ key.length := by
            rw [sqlGroups_key_len hkey]
          rw [List.map_append, List.map_append, List.map_fst_zip _ _ hlen]
          congr 1
          · simp [Function.comp_def, dimColumn]
          · rw [List.map_flatMap, List.map_flatMap]
            congr 1
            funext combo
            rw [List.map_map, List.map_map]
            simp [Function.comp_def, pivotColumn]

/-- A key set that over-approximates the keys a mock pivot output row can
carry: the row-dimension names plus every `(bucket combo × measure)`
key. -/
def PivotAllowed (gbr : List String) (values : List ValueSpec) (n : Nat)
    (bkts : List (List Value × List Row)) (k : String) : Prop :=
  k ∈ gbr ∨ ∃ b ∈ bkts, ∃ vs ∈ values, k = pivotColKey (b.1.drop n) vs

/-- `dictSet` only adds the assigned key. -/
theorem dictSet_keys {r : Row} {key : String} {v : Value} :
    ∀ k ∈ (dictSet r key v).map Prod.fst, k ∈ r.map Prod.fst ∨ k = key := by
  intro k hk
  rw [dictSet.eq_def] at hk
  split at hk
  · rcases List.mem_map.mp hk with ⟨e, he, rfl⟩
    rcases List.mem_map.mp he with ⟨e', he', rfl⟩
    split
    · exact Or.inr rfl
    · exact Or.inl (List.mem_map_of_mem Prod.fst he')
  · rw [List.map_append] at hk
    rcases List.mem_append.mp hk with h | h
    · exact Or.inl h
    · rcases List.mem_singleton.mp h with rfl
      exact Or.inr rfl

/-- The measure-writing fold of `pivotAccumulate` only adds pivot keys of
the processed bucket. -/
theorem pivotWrite_keys (values : List ValueSpec) (combo : List Value)
    (agg : ValueSpec → Value) :
    ∀ (vl : List ValueSpec) (dest : Row),
      (∀ vs ∈ vl, vs ∈ values) →
      ∀ k ∈ (vl.foldl (fun dest vs =>
          dictSet dest (pivotColKey combo vs) (agg vs)) dest).map Prod.fst,
        k ∈ dest.map Prod.fst ∨ ∃ vs ∈ values, k = pivotColKey combo vs := by
  intro vl
  induction vl with
  | nil => intro dest _ k hk; exact Or.inl hk
  | cons vs rest ih =>
    intro dest hvl k hk
    rw [List.foldl_cons] at hk
    rcases ih (dictSet dest (pivotColKey combo vs) (agg vs))
        (fun v hv => hvl v (List.mem_cons_of_mem _ hv)) k hk with h | h
    · rcases dictSet_keys k h with h' | h'
      · exact Or.inl h'
      · exact Or.inr ⟨vs, hvl vs (List.mem_cons_self _ _), h'⟩
    · exact Or.inr h

/-- One step of the row-group accumulation keeps every key a dimension
name or a pivot key of some bucket. -/
theorem pivotAccumulate_step (gbr : List String) (values : List ValueSpec)
    (n : Nat) (bkts : List (List Value × List Row))
    {b : List Value × List Row} (hb : b ∈ bkts)
    (hblen : gbr.length ≤ b.1.length)
    (rgs : List (List Value × Row))
    (hrgs : ∀ e ∈ rgs, ∀ k ∈ e.2.map Prod.fst, PivotAllowed gbr values n bkts k) :
    ∀ e ∈ pivotAccumulate gbr values n rgs b,
      ∀ k ∈ e.2.map Prod.fst, PivotAllowed gbr values n bkts k := by
  intro e' he' k hk
  simp only [pivotAccumulate] at he'
  rcases List.mem_map.mp he' with ⟨e₀, he₀, rfl⟩
  have he₀' : e₀ ∈ rgs ∨ e₀ = (b.1.take n, gbr.zip b.1) := by
    split at he₀
    · exact Or.inl he₀
    · rcases List.mem_append.mp he₀ with h | h
      · exact Or.inl h
      · exact Or.inr (List.mem_singleton.mp h)
  have hbase : ∀ k ∈ e₀.2.map Prod.fst, PivotAllowed gbr values n bkts k := by
    rcases he₀' with h | rfl
    · exact hrgs e₀ h
    · intro k hk
      rw [List.map_fst_zip _ _ hblen] at hk
      exact Or.inl hk
  split at hk
  · rcases pivotWrite_keys values (b.1.drop n)
        (fun vs => computeAgg vs.agg vs.column b.2) values e₀.2
        (fun v hv => hv) k hk with h | h
    · exact hbase k h
    · exact Or.inr ⟨b, hb, h⟩
  · exact hbase k hk

/-- Invariant of the whole accumulation fold. -/
theorem pivotAccumulate_inv (gbr : List String) (values : List ValueSpec)
    (n : Nat) (bkts : List (List Value × List Row))
    (hlen : ∀ b ∈ bkts, gbr.length ≤ b.1.length) :
    ∀ (l : List (List Value × List Row)), (∀ x ∈ l, x ∈ bkts) →
    ∀ (rgs : List (List Value × Row)),
      (∀ e ∈ rgs, ∀ k ∈ e.2.map Prod.fst, PivotAllowed gbr values n bkts k) →
      ∀ e ∈ l.foldl (pivotAccumulate gbr values n) rgs,
        ∀ k ∈ e.2.map Prod.fst, PivotAllowed gbr values n bkts k := by
  intro l
  induction l with
  | nil => intro _ rgs hrgs e he; exact hrgs e he
  | cons b rest ih =>
    intro hl rgs hrgs e he
    rw [List.foldl_cons] at he
    exact ih (fun x hx => hl x (List.mem_cons_of_mem _ hx))
      (pivotAccumulate gbr values n rgs b)
      (pivotAccumulate_step gbr values n bkts (hl b (List.mem_cons_self _ _))
        (hlen b (hl b (List.mem_cons_self _ _))) rgs hrgs)
      e he

/-- Pivot aggregation in the mock provider: every key of every output row
is one of the result's descriptor keys, provided Python-equal pivot
combos are structurally equal (Python `set`/`sorted` deduplicate combos by
`==` while the per-row keys stringify each bucket's own combo, so a
`1`-vs-`True` style combo pair would produce a key outside the descriptor
list — the claim then fails even in this subset form). -/
theorem mockPivot_row_keys_subset (data : List Row) (gbr gbc : List String)
    (values : List ValueSpec) (fg : Option FilterGroup)
    (sort : Option (List SortSpec)) (limit : Option Nat) (offset : Nat)
    (hgbc : gbc ≠ [])
    (hcombos : ∀ x ∈ (buckets (applyFilter data fg) (gbr ++ gbc)).map
        (fun b => b.1.drop gbr.length),
      ∀ y ∈ (buckets (applyFilter data fg) (gbr ++ gbc)).map
        (fun b => b.1.drop gbr.length),
      pyEqList x y = true → x = y) :
    ∀ row ∈ (mockAggregate data gbr gbc values fg sort limit offset).rows,
      ∀ k ∈ row.map Prod.fst,
        k ∈ (mockAggregate data gbr gbc values fg sort limit offset).columns.map (·.key) := by
  intro row hrow k hk
  have hne : gbc.isEmpty = false := by
    cases gbc with
    | nil => exact absurd rfl hgbc
    | cons _ _ => rfl
  have hrows : (mockAggregate data gbr gbc values fg sort limit offset).rows =
      (mockPivotAggregate (buckets (applyFilter data fg) (gbr ++ gbc))
        gbr gbc values sort limit offset).rows := by
    rw [mockAggregate]
    rw [hne]
    simp
  have hcols : (mockAggregate data gbr gbc values fg sort limit offset).columns =
      (mockPivotAggregate (buckets (applyFilter data fg) (gbr ++ gbc))
        gbr gbc values sort limit offset).columns := by
    rw [mockAggregate]
    rw [hne]
    simp
  rw [hrows] at hrow
  rw [hcols]
  set bkts := buckets (applyFilter data fg) (gbr ++ gbc) with hbkts
  have hlen : ∀ b ∈ bkts, gbr.length ≤ b.1.length := by
    intro b hb
    rcases buckets_key_mem b hb with ⟨r, _, hr⟩
    rw [hr, List.length_map, List.length_append]
    omega
  have hrow' : row ∈ aggSlice (applySort
      ((bkts.foldl (pivotAccumulate gbr values gbr.length) []).map (fun e => e.2))
      sort) limit offset := hrow
  rcases List.mem_map.mp (mem_applySort (mem_aggSlice hrow')) with ⟨e, he, rfl⟩
  have hallowed := pivotAccumulate_inv gbr values gbr.length bkts hlen bkts
    (fun x hx => hx) [] (by intro e he; cases he) e he k hk
  have hcolshape : (mockPivotAggregate bkts gbr gbc values sort limit offset).columns =
      gbr.map dimColumn ++
        ((dedupBy pyEqList (bkts.map (fun b => b.1.drop gbr.length))).mergeSort comboLe).flatMap
          (fun combo => values.map (pivotColumn combo)) := rfl
  rw [hcolshape]
  rcases hallowed with h | ⟨b, hb, vs, hvs, rfl⟩
  · refine List.mem_map.mpr ⟨dimColumn k, List.mem_append.mpr (Or.inl ?_), rfl⟩
    exact List.mem_map_of_mem dimColumn h
  · have hsuffix : b.1.drop gbr.length ∈ bkts.map (fun b => b.1.drop gbr.length) :=
      List.mem_map_of_mem _ hb
    rcases exists_rep_dedupBy pyEqList_refl (fun _ _ _ => pyEqList_trans) hsuffix
      with ⟨y, hy, hyx⟩
    have hy' : y ∈ bkts.map (fun b => b.1.drop gbr.length) := mem_of_mem_dedupBy hy
    have hyeq : y = b.1.drop gbr.length := hcombos y hy' _ hsuffix hyx
    have hmemded : b.1.drop gbr.length ∈
        dedupBy pyEqList (bkts.map (fun b => b.1.drop gbr.length)) := hyeq ▸ hy
    refine List.mem_map.mpr
      ⟨pivotColumn (b.1.drop gbr.length) vs, List.mem_append.mpr (Or.inr ?_), rfl⟩
    exact List.mem_flatMap.mpr
      ⟨b.1.drop gbr.length, List.mem_mergeSort.mpr hmemded, List.mem_map_of_mem _ hvs⟩

/-- C7 counterexample: on a dataset where the row group `N` has no
`G` rows, the mock provider's pivot aggregation omits the `G_first_a`
entry from the `N` row even though `G_first_a` is one of the result's
descriptor keys — rows are not keyed by every `AggregateColumn.key`. -/
theorem mock_pivot_row_missing_descriptor_key :
    (mockAggregate
        [[("r", Value.str "N"), ("p", Value.str "W"), ("a", Value.num 1)],
         [("r", Value.str "S"), ("p", Value.str "G"), ("a", Value.num 2)]]
        ["r"] ["p"] [{ column := "a", agg := .first }]).rows =
      [[("r", Value.str "N"), ("W_first_a", Value.num 1)],
       [("r", Value.str "S"), ("G_first_a", Value.num 2)]] ∧
    "G_first_a" ∈ (mockAggregate
        [[("r", Value.str "N"), ("p", Value.str "W"), ("a", Value.num 1)],
         [("r", Value.str "S"), ("p", Value.str "G"), ("a", Value.num 2)]]
        ["r"] ["p"] [{ column := "a", agg := .first }]).columns.map (·.key) ∧
    "G_first_a" ∉
      ([("r", Value.str "N"), ("W_first_a", Value.num 1)] : Row).map Prod.fst := by
  refine ⟨rfl, ?_, by decide⟩
  refine List.mem_map.mpr
    ⟨pivotColumn [Value.str "G"] { column := "a", agg := .first },
      List.mem_append.mpr (Or.inr (List.mem_flatMap.mpr
        ⟨[Value.str "G"], List.mem_mergeSort.mpr (by decide), by decide⟩)), by decide⟩

/-- C7 (amended): every aggregate row is keyed exactly by the descriptor
keys, except in the mock provider's pivot path, where a row carries only
the keys of pivot combos its row group actually has data for — a subset
of the descriptor keys (under structural-vs-Python-equality agreement of
combos).  In detail: simple aggregation (both providers) and SQL pivot
aggregation produce rows whose key list equals the descriptor key list in
order; mock pivot rows are sparse but never carry a non-descriptor
key. -/
theorem aggregate_rows_descriptor_keys
    (data table : List Row) (lookup gbr gbc : List String)
    (values : List ValueSpec) (fg : Option FilterGroup)
    (sort : Option (List SortSpec)) (limit : Option Nat) (offset : Nat) :
    (∀ row ∈ (mockAggregate data gbr [] values fg sort limit offset).rows,
      row.map Prod.fst =
        (mockAggregate data gbr [] values fg sort limit offset).columns.map (·.key)) ∧
    (∀ res : AggregateResult,
      sqlSimpleAggregate table lookup gbr values fg sort limit offset = .ok res →
      ∀ row ∈ res.rows, row.map Prod.fst = res.columns.map (·.key)) ∧
    (∀ res : AggregateResult,
      sqlPivotAggregate table lookup gbr gbc values fg sort limit offset = .ok res →
      ∀ row ∈ res.rows, row.map Prod.fst = res.columns.map (·.key)) ∧
    (gbc ≠ [] →
      (∀ x ∈ (buckets (applyFilter data fg) (gbr ++ gbc)).map
          (fun b => b.1.drop gbr.length),
        ∀ y ∈ (buckets (applyFilter data fg) (gbr ++ gbc)).map
          (fun b => b.1.drop gbr.length),
        pyEqList x y = true → x = y) →
      ∀ row ∈ (mockAggregate data gbr gbc values fg sort limit offset).rows,
        ∀ k ∈ row.map Prod.fst,
          k ∈ (mockAggregate data gbr gbc values fg sort limit offset).columns.map (·.key)) :=
  ⟨mockSimple_row_keys data gbr values fg sort limit offset,
    fun res hok => sqlSimple_row_keys table lookup gbr values fg sort limit offset res hok,
    fun res hok => sqlPivot_row_keys table lookup gbr gbc values fg sort limit offset res hok,
    fun hgbc hcombos =>
      mockPivot_row_keys_subset data gbr gbc values fg sort limit offset hgbc hcombos⟩

/-- C7 witness: the amended theorem applied to concrete datasets — a
one-row simple aggregation (mock and SQL), a one-row SQL pivot, and the
sparse two-row mock pivot with its combo hypothesis discharged. -/
theorem aggregate_rows_descriptor_keys_witness :
    (∀ row ∈ (mockAggregate [[("r", Value.str "N"), ("a", Value.num 1)]]
        ["r"] [] [{ column := "a", agg := .first }] none none none 0).rows,
      row.map Prod.fst =
        (mockAggregate [[("r", Value.str "N"), ("a", Value.num 1)]]
          ["r"] [] [{ column := "a", agg := .first }] none none none 0).columns.map (·.key)) ∧
    (∀ row ∈ [[("r", Value.str "N"), ("first_a", Value.num 1)]],
      row.map Prod.fst =
        ([{ key := "r", header := "r" },
          { key := "first_a", header := "first_a", measure := some "a",
            agg := some AggFunc.first }] : List AggregateColumn).map (·.key)) ∧
    (∀ row ∈ [[("r", Value.str "N"), ("W_first_a", Value.num 1)]],
      row.map Prod.fst =
        ([{ key := "r", header := "r" },
          pivotColumn [Value.str "W"] { column := "a", agg := .first }] :
          List AggregateColumn).map (·.key)) ∧
    (∀ row ∈ (mockAggregate
        [[("r", Value.str "N"), ("p", Value.str "W"), ("a", Value.num 1)],
         [("r", Value.str "S"), ("p", Value.str "G"), ("a", Value.num 2)]]
        ["r"] ["p"] [{ column := "a", agg := .first }] none none none 0).rows,
      ∀ k ∈ row.map Prod.fst,
        k ∈ (mockAggregate
          [[("r", Value.str "N"), ("p", Value.str "W"), ("a", Value.num 1)],
           [("r", Value.str "S"), ("p", Value.str "G"), ("a", Value.num 2)]]
          ["r"] ["p"] [{ column := "a", agg := .first }] none none none 0).columns.map (·.key)) := by
  have hsimple : sqlSimpleAggregate [[("r", Value.str "N"), ("a", Value.num 1)]]
      ["r", "a"] ["r"] [{ column := "a", agg := .first }] none none none 0 =
      .ok { columns := [{ key := "r", header := "r" },
              { key := "first_a", header := "first_a", measure := some "a",
                agg := some AggFunc.first }],
            rows := [[("r", Value.str "N"), ("first_a", Value.num 1)]],
            total := 1 } := rfl
  have hcombos : sqlDiscoverCombos [[("r", Value.str "N"), ("p", Value.str "W"), ("a", Value.num 1)]]
      none ["p"] = [[Value.str "W"]] := by
    rw [sqlDiscoverCombos]
    rw [show dedupBy pyEqList
        ((sqlWhere [[("r", Value.str "N"), ("p", Value.str "W"), ("a", Value.num 1)]] none).map
          (fun r => ["p"].map (rowGet r))) = [[Value.str "W"]] from rfl]
    exact List.mergeSort_singleton _
  have hpivot : sqlPivotAggregate [[("r", Value.str "N"), ("p", Value.str "W"), ("a", Value.num 1)]]
      ["r", "p", "a"] ["r"] ["p"] [{ column := "a", agg := .first }] none none none 0 =
      .ok { columns := [{ key := "r", header := "r" },
              pivotColumn [Value.str "W"] { column := "a", agg := .first }],
            rows := [[("r", Value.str "N"), ("W_first_a", Value.num 1)]],
            total := 1 } := by
    have step : sqlPivotAggregate [[("r", Value.str "N"), ("p", Value.str "W"), ("a", Value.num 1)]]
        ["r", "p", "a"] ["r"] ["p"] [{ column := "a", agg := .first }] none none none 0 =
        .ok { columns := ["r"].map dimColumn ++
                (sqlDiscoverCombos [[("r", Value.str "N"), ("p", Value.str "W"), ("a", Value.num 1)]] none ["p"]).flatMap
                  (fun combo => [{ column := "a", agg := .first : ValueSpec }].map (pivotColumn combo)),
              rows := sqlLimitOffset (sqlApplySort
                ((sqlGroups (sqlWhere [[("r", Value.str "N"), ("p", Value.str "W"), ("a", Value.num 1)]] none) ["r"]).map
                  (fun key => ["r"].zip key ++
                    (sqlDiscoverCombos [[("r", Value.str "N"), ("p", Value.str "W"), ("a", Value.num 1)]] none ["p"]).flatMap
                      (fun combo => [{ column := "a", agg := .first : ValueSpec }].map
                        (fun vs => (pivotColKey combo vs,
                          sqlComputeAgg vs.agg
                            ((sqlGroupRows (sqlWhere [[("r", Value.str "N"), ("p", Value.str "W"), ("a", Value.num 1)]] none) ["r"] key).map
                              (sqlCaseCell ["p"] combo vs.column))))))) none) none 0,
              total := (sqlGroups (sqlWhere [[("r", Value.str "N"), ("p", Value.str "W"), ("a", Value.num 1)]] none) ["r"]).length } := rfl
    rw [step, hcombos]
    rfl
  refine ⟨?_, ?_, ?_, ?_⟩
  · exact (aggregate_rows_descriptor_keys [[("r", Value.str "N"), ("a", Value.num 1)]]
      [] [] ["r"] [] [{ column := "a", agg := .first }] none none none 0).1
  · exact (aggregate_rows_descriptor_keys []
      [[("r", Value.str "N"), ("a", Value.num 1)]] ["r", "a"] ["r"] []
      [{ column := "a", agg := .first }] none none none 0).2.1 _ hsimple
  · exact (aggregate_rows_descriptor_keys []
      [[("r", Value.str "N"), ("p", Value.str "W"), ("a", Value.num 1)]] ["r", "p", "a"]
      ["r"] ["p"] [{ column := "a", agg := .first }] none none none 0).2.2.1 _ hpivot
  · exact (aggregate_rows_descriptor_keys
      [[("r", Value.str "N"), ("p", Value.str "W"), ("a", Value.num 1)],
       [("r", Value.str "S"), ("p", Value.str "G"), ("a", Value.num 2)]]
      [] [] ["r"] ["p"] [{ column := "a", agg := .first }] none none none 0).2.2.2
      (by decide) (by decide)

/-! ## Claim C9 — filter-group JSON round-trip -/

/-- JSON serialisation of payload values is parsed back exactly. -/
theorem jsonToValue_valueToJson : ∀ v : Value, jsonToValue (valueToJson v) = some v := by
  intro v
  refine @Value.rec (fun v => jsonToValue (valueToJson v) = some v)
    (fun l => jsonToValueList (valueToJsonList l) = some l) ?_ ?_ ?_ ?_ ?_ ?_ ?_ v
  · rfl
  · intro b
    rfl
  · intro q
    rfl
  · intro s
    rfl
  · intro vs ih
    rw [valueToJson, jsonToValue, ih]
    rfl
  · rfl
  · intro v vs ihv ihvs
    rw [valueToJsonList, jsonToValueList, ihv, ihvs]
    rfl

/-- The serialised payload of a condition value never contains a `negate`
key (it contains no objects at all). -/
theorem jsonNoKey_valueToJson (key : String) :
    ∀ v : Value, jsonNoKey key (valueToJson v) = true := by
  intro v
  refine @Value.rec (fun v => jsonNoKey key (valueToJson v) = true)
    (fun l => jsonNoKeyList key (valueToJsonList l) = true) ?_ ?_ ?_ ?_ ?_ ?_ ?_ v
  · rfl
  · intro b
    rfl
  · intro q
    rfl
  · intro s
    rfl
  · intro vs ih
    rw [valueToJson, jsonNoKey]
    exact ih
  · rfl
  · intro v vs ihv ihvs
    rw [valueToJsonList, jsonNoKeyList, ihv, ihvs]
    rfl

/-- Operator wire strings parse back to the operator. -/
theorem parseOperator_opWire : ∀ op : FilterOperator, parseOperator (opWire op) = some op := by
  intro op
  cases op <;> rfl

/-- Combinator wire strings parse back to the combinator. -/
theorem parseCombinator_combWire :
    ∀ c : FilterCombinator, parseCombinator (combWire c) = some c := by
  intro c
  cases c <;> rfl

/-- A dumped condition parses back to itself. -/
theorem parseCondition_dumpCondition (c : FilterCondition) :
    parseCondition (dumpCondition c) = some c := by
  rcases c with ⟨column, operator, value, negate⟩
  simp [parseCondition, dumpCondition, jLookup, negateField,
    parseOperator_opWire operator, jsonToValue_valueToJson value]

/-- A dumped condition list parses back to itself. -/
theorem parseConditionList_dump :
    ∀ conds : List FilterCondition,
      parseConditionList (conds.map dumpCondition) = some conds := by
  intro conds
  induction conds with
  | nil => rfl
  | cons c cs ih =>
    rw [List.map_cons, parseConditionList, parseCondition_dumpCondition c, ih]
    rfl

mutual
/-- A dumped group parses back to itself (the core of U7). -/
theorem parseGroup_dumpGroup :
    ∀ g : FilterGroup, parseGroup (dumpGroup g) = some g
  | .mk comb neg conds gs => by
    rw [dumpGroup, parseGroup]
    simp [jLookup, negateField, parseCombinator_combWire comb,
      parseConditionList_dump conds, parseGroupList_dumpGroupList gs]

/-- A dumped group list parses back to itself. -/
theorem parseGroupList_dumpGroupList :
    ∀ gs : List FilterGroup, parseGroupList (dumpGroupList gs) = some gs
  | [] => by
    rw [dumpGroupList, parseGroupList]
  | g :: rest => by
    rw [dumpGroupList, parseGroupList, parseGroup_dumpGroup g,
      parseGroupList_dumpGroupList rest]
end

/-- A dumped condition carries no `negate` key. -/
theorem jsonNoKey_dumpCondition (c : FilterCondition) :
    jsonNoKey "negate" (dumpCondition c) = true := by
  rw [dumpCondition, jsonNoKey]
  simp [jsonNoKeyKvs, jsonNoKey, jsonNoKey_valueToJson]

/-- A dumped condition list carries no `negate` key. -/
theorem jsonNoKeyList_dumpConds :
    ∀ conds : List FilterCondition,
      jsonNoKeyList "negate" (conds.map dumpCondition) = true := by
  intro conds
  induction conds with
  | nil => rfl
  | cons c cs ih =>
    rw [List.map_cons, jsonNoKeyList, jsonNoKey_dumpCondition c, ih]
    rfl

mutual
/-- Dumps never contain a `negate` key at any level. -/
theorem jsonNoKey_dumpGroup :
    ∀ g : FilterGroup, jsonNoKey "negate" (dumpGroup g) = true
  | .mk comb neg conds gs => by
    rw [dumpGroup, jsonNoKey]
    simp [jsonNoKeyKvs, jsonNoKey, jsonNoKeyList_dumpConds conds,
      jsonNoKeyList_dumpGroupList gs]

/-- List version of `jsonNoKey_dumpGroup`. -/
theorem jsonNoKeyList_dumpGroupList :
    ∀ gs : List FilterGroup, jsonNoKeyList "negate" (dumpGroupList gs) = true
  | [] => rfl
  | g :: rest => by
    rw [dumpGroupList, jsonNoKeyList, jsonNoKey_dumpGroup g,
      jsonNoKeyList_dumpGroupList rest]
    rfl
end

/-- C9: the JSON round trip of `FilterGroup` is idempotent — parsing any
dumped group yields the group back, hence dumping again reproduces the
same JSON; and the dumped form serialises the `negate` field as `"not"`
at every level (no `negate` key appears anywhere in a dump). -/
theorem filtergroup_json_roundtrip (g : FilterGroup) :
    parseGroup (dumpGroup g) = some g ∧
    (parseGroup (dumpGroup g)).map dumpGroup = some (dumpGroup g) ∧
    jsonNoKey "negate" (dumpGroup g) = true := by
  refine ⟨parseGroup_dumpGroup g, ?_, jsonNoKey_dumpGroup g⟩
  rw [parseGroup_dumpGroup g]
  rfl

/-! ## Claim C8 — mock sort semantics

The stable-sort lemmas below need the comparator to be lawful (total and
transitive); these laws are proved for `valueCmp` first. -/

/-- `compare` on a linear order is antisymmetric under `swap`. -/
theorem ordSwap [LinearOrder α] (x y : α) : compare y x = (compare x y).swap := by
  rcases lt_trichotomy x y with h | rfl | h
  · rw [compare_lt_iff_lt.2 h, compare_gt_iff_gt.2 h]
    rfl
  · rw [compare_eq_iff_eq.2 rfl]
    rfl
  · rw [compare_gt_iff_gt.2 h, compare_lt_iff_lt.2 h]
    rfl

/-- `compare` on a linear order is transitive in its non-strict form. -/
theorem ordLeTrans [LinearOrder α] {x y z : α}
    (h1 : compare x y ≠ .gt) (h2 : compare y z ≠ .gt) : compare x z ≠ .gt :=
  compare_le_iff_le.2 (le_trans (compare_le_iff_le.1 h1) (compare_le_iff_le.1 h2))

/-- The totalised comparator is antisymmetric under `swap`. -/
theorem valueCmp_swap : ∀ a b : Value, valueCmp b a = (valueCmp a b).swap := by
  intro a
  refine @Value.rec (fun a => ∀ b, valueCmp b a = (valueCmp a b).swap)
    (fun l => ∀ bs, valueCmpList bs l = (valueCmpList l bs).swap) ?_ ?_ ?_ ?_ ?_ ?_ ?_ a
  · intro b
    cases b <;> simp only [valueCmp, Value.asNum?, typeRank] <;> exact ordSwap _ _
  · intro a b
    cases b <;> simp only [valueCmp, Value.asNum?, typeRank] <;> exact ordSwap _ _
  · intro q b
    cases b <;> simp only [valueCmp, Value.asNum?, typeRank] <;> exact ordSwap _ _
  · intro s b
    cases b <;> simp only [valueCmp, Value.asNum?, typeRank] <;> exact ordSwap _ _
  · intro vs ih b
    cases b <;> simp only [valueCmp, Value.asNum?, typeRank]
    case null => exact ordSwap _ _
    case bool => exact ordSwap _ _
    case num => exact ordSwap _ _
    case str => exact ordSwap _ _
    case list bs => exact ih bs
  · intro bs
    cases bs <;> rfl
  · intro v vs ihv ihvs bs
    cases bs with
    | nil => rfl
    | cons w ws =>
      rw [valueCmpList, valueCmpList, ihv w]
      cases valueCmp v w <;> simp [Ordering.swap, ihvs ws]

/-- Totality of the comparator: one direction is always non-`gt`. -/
theorem valueCmp_total (a b : Value) : valueCmp a b ≠ .gt ∨ valueCmp b a ≠ .gt := by
  rcases h : valueCmp a b with _ | _ | _
  · exact Or.inl (by simp [h])
  · exact Or.inl (by simp [h])
  · right
    rw [valueCmp_swap, h]
    simp [Ordering.swap]

/-- Strong-induction core for transitivity of the non-strict order induced
by `valueCmp` / `valueCmpList`. -/
theorem valueCmp_leTrans_aux : ∀ n : Nat,
    (∀ a b c : Value, sizeOf a + sizeOf b + sizeOf c ≤ n →
      valueCmp a b ≠ .gt → valueCmp b c ≠ .gt → valueCmp a c ≠ .gt) ∧
    (∀ as bs cs : List Value, sizeOf as + sizeOf bs + sizeOf cs ≤ n →
      valueCmpList as bs ≠ .gt → valueCmpList bs cs ≠ .gt → valueCmpList as cs ≠ .gt) := by
  intro n
  induction n using Nat.strong_induction_on with
  | _ n ih =>
    constructor
    · intro a b c hsz h1 h2
      cases a <;> cases b <;> cases c <;>
        simp only [valueCmp, Value.asNum?, typeRank] at h1 h2 ⊢ <;>
        first
        | decide
        | exact ordLeTrans h1 h2
        | exact absurd h1 (by decide)
        | exact absurd h2 (by decide)
        | (rename_i as bs cs
           simp only [Value.list.sizeOf_spec] at hsz
           exact (ih (sizeOf as + sizeOf bs + sizeOf cs) (by omega)).2 as bs cs le_rfl h1 h2)
    · intro as bs cs hsz h1 h2
      cases as with
      | nil =>
        cases cs with
        | nil => simp [valueCmpList]
        | cons u us => simp [valueCmpList]
      | cons v vs =>
        cases bs with
        | nil =>
          rw [valueCmpList] at h1
          exact absurd rfl h1
        | cons w ws =>
          cases cs with
          | nil =>
            rw [valueCmpList] at h2
            exact absurd rfl h2
          | cons u us =>
            simp only [List.cons.sizeOf_spec] at hsz
            have ihV : ∀ x y z : Value, sizeOf x + sizeOf y + sizeOf z < n →
                valueCmp x y ≠ .gt → valueCmp y z ≠ .gt → valueCmp x z ≠ .gt :=
              fun x y z h => (ih _ h).1 x y z le_rfl
            have hvwu : sizeOf v + sizeOf w + sizeOf u < n := by omega
            have huvw : sizeOf u + sizeOf v + sizeOf w < n := by omega
            have hwuv : sizeOf w + sizeOf u + sizeOf v < n := by omega
            have huwv : sizeOf u + sizeOf w + sizeOf v < n := by omega
            rw [valueCmpList] at h1 h2 ⊢
            rcases hvw : valueCmp v w with _ | _ | _ <;> rw [hvw] at h1
            · -- v < w strictly
              have hlevw : valueCmp v w ≠ .gt := by simp [hvw]
              rcases hwu : valueCmp w u with _ | _ | _ <;> rw [hwu] at h2
              · -- w < u: conclude v < u strictly
                have hlewu : valueCmp w u ≠ .gt := by simp [hwu]
                have hlevu : valueCmp v u ≠ .gt := ihV v w u hvwu hlevw hlewu
                have hne : valueCmp v u ≠ .eq := by
                  intro he
                  have huv : valueCmp u v ≠ .gt := by
                    rw [valueCmp_swap, he]
                    simp [Ordering.swap]
                  have huw : valueCmp u w ≠ .gt := ihV u v w huvw huv hlevw
                  rw [valueCmp_swap, hwu] at huw
                  exact huw rfl
                rcases hvu : valueCmp v u with _ | _ | _
                · simp
                · exact absurd hvu hne
                · exact absurd hvu hlevu
              · -- w ≈ u: conclude v < u strictly
                have hlewu : valueCmp w u ≠ .gt := by simp [hwu]
                have hlevu : valueCmp v u ≠ .gt := ihV v w u hvwu hlevw hlewu
                have hne : valueCmp v u ≠ .eq := by
                  intro he
                  have huv : valueCmp u v ≠ .gt := by
                    rw [valueCmp_swap, he]
                    simp [Ordering.swap]
                  have hleuw : valueCmp u w ≠ .gt := by
                    rw [valueCmp_swap, hwu]
                    simp [Ordering.swap]
                  have hwv : valueCmp w v ≠ .gt := ihV w u v hwuv hlewu huv
                  rw [valueCmp_swap, hvw] at hwv
                  exact hwv rfl
                rcases hvu : valueCmp v u with _ | _ | _
                · simp
                · exact absurd hvu hne
                · exact absurd hvu hlevu
              · exact absurd rfl h2
            · -- v ≈ w
              rcases hwu : valueCmp w u with _ | _ | _ <;> rw [hwu] at h2
              · -- w < u: conclude v < u strictly
                have hlevw : valueCmp v w ≠ .gt := by simp [hvw]
                have hlewu : valueCmp w u ≠ .gt := by simp [hwu]
                have hlevu : valueCmp v u ≠ .gt := ihV v w u hvwu hlevw hlewu
                have hne : valueCmp v u ≠ .eq := by
                  intro he
                  have huv : valueCmp u v ≠ .gt := by
                    rw [valueCmp_swap, he]
                    simp [Ordering.swap]
                  have hlevw2 : valueCmp v w ≠ .gt := by simp [hvw]
                  have huw : valueCmp u w ≠ .gt := ihV u v w huvw huv hlevw2
                  rw [valueCmp_swap, hwu] at huw
                  exact huw rfl
                rcases hvu : valueCmp v u with _ | _ | _
                · simp
                · exact absurd hvu hne
                · exact absurd hvu hlevu
              · -- v ≈ w ≈ u: heads equal, recurse on tails
                have hlevw : valueCmp v w ≠ .gt := by simp [hvw]
                have hlewu : valueCmp w u ≠ .gt := by simp [hwu]
                have hlevu : valueCmp v u ≠ .gt := ihV v w u hvwu hlevw hlewu
                have hleuw : valueCmp u w ≠ .gt := by
                  rw [valueCmp_swap, hwu]
                  simp [Ordering.swap]
                have hlewv : valueCmp w v ≠ .gt := by
                  rw [valueCmp_swap, hvw]
                  simp [Ordering.swap]
                have hleuv : valueCmp u v ≠ .gt := ihV u w v huwv hleuw hlewv
                have heq : valueCmp v u = .eq := by
                  rcases hvu : valueCmp v u with _ | _ | _
                  · rw [valueCmp_swap, hvu] at hleuv
                    exact absurd rfl hleuv
                  · rfl
                  · exact absurd hvu hlevu
                rw [heq]
                have htails : sizeOf vs + sizeOf ws + sizeOf us < n := by omega
                exact (ih _ htails).2 vs ws us le_rfl h1 h2
              · exact absurd rfl h2
            · exact absurd rfl h1

/-- Transitivity of the non-strict order induced by `valueCmp`. -/
theorem valueCmp_leTrans {a b c : Value}
    (h1 : valueCmp a b ≠ .gt) (h2 : valueCmp b c ≠ .gt) : valueCmp a c ≠ .gt :=
  (valueCmp_leTrans_aux (sizeOf a + sizeOf b + sizeOf c)).1 a b c le_rfl h1 h2

/-- Transitivity of the non-strict order induced by `valueCmpList`. -/
theorem valueCmpList_leTrans {as bs cs : List Value}
    (h1 : valueCmpList as bs ≠ .gt) (h2 : valueCmpList bs cs ≠ .gt) :
    valueCmpList as cs ≠ .gt :=
  (valueCmp_leTrans_aux (sizeOf as + sizeOf bs + sizeOf cs)).2 as bs cs le_rfl h1 h2

/-- The per-spec strict comparator is asymmetric. -/
theorem sortKeyLt_asymm (c : String) (a b : Row)
    (h : sortKeyLt c a b = true) : sortKeyLt c b a = false := by
  by_cases ha : rowGet a c = Value.null
  · simp [sortKeyLt, ha] at h
  · by_cases hb : rowGet b c = Value.null
    · simp [sortKeyLt, ha, hb]
    · simp only [sortKeyLt, beq_iff_eq, if_neg ha, if_neg hb] at h ⊢
      have hlt : valueCmp (rowGet a c) (rowGet b c) = .lt := by
        rcases hv : valueCmp (rowGet a c) (rowGet b c) with _ | _ | _ <;> rw [hv] at h
        · exact absurd h (by decide)
        · exact absurd h (by decide)
      rw [valueCmp_swap, hlt]
      rfl

/-- Negative transitivity of the per-spec strict comparator. -/
theorem sortKeyLt_negtrans (c : String) (x y z : Row)
    (h : sortKeyLt c x z = true) :
    sortKeyLt c x y = true ∨ sortKeyLt c y z = true := by
  by_cases hx : rowGet x c = Value.null
  · simp [sortKeyLt, hx] at h
  · by_cases hy : rowGet y c = Value.null
    · left
      simp [sortKeyLt, hx, hy]
    · by_cases hz : rowGet z c = Value.null
      · right
        simp [sortKeyLt, hy, hz]
      · simp only [sortKeyLt, beq_iff_eq, if_neg hx, if_neg hy, if_neg hz] at h ⊢
        have hlt : valueCmp (rowGet x c) (rowGet z c) = .lt := by
          rcases hv : valueCmp (rowGet x c) (rowGet z c) with _ | _ | _ <;> rw [hv] at h
          · exact absurd h (by decide)
          · exact absurd h (by decide)
        by_cases hxy : valueCmp (rowGet x c) (rowGet y c) = .lt
        · left
          rw [hxy]
          rfl
        · right
          by_cases hyz : valueCmp (rowGet y c) (rowGet z c) = .lt
          · rw [hyz]
            rfl
          · exfalso
            have hyx : valueCmp (rowGet y c) (rowGet x c) ≠ .gt := by
              rw [valueCmp_swap]
              rcases hv : valueCmp (rowGet x c) (rowGet y c) with _ | _ | _
              · exact absurd hv hxy
              · simp [Ordering.swap]
              · simp [Ordering.swap]
            have hzy : valueCmp (rowGet z c) (rowGet y c) ≠ .gt := by
              rw [valueCmp_swap]
              rcases hv : valueCmp (rowGet y c) (rowGet z c) with _ | _ | _
              · exact absurd hv hyz
              · simp [Ordering.swap]
              · simp [Ordering.swap]
            have hzx : valueCmp (rowGet z c) (rowGet x c) ≠ .gt :=
              valueCmp_leTrans hzy hyx
            rw [valueCmp_swap, hlt] at hzx
            exact hzx rfl

/-- The non-strict one-spec comparator is total. -/
theorem specLe_total (s : SortSpec) (a b : Row) :
    (specLe s a b || specLe s b a) = true := by
  cases hd : s.direction <;> simp only [specLe, hd]
  · rcases h : sortKeyLt s.column b a with _ | _
    · simp
    · simp [sortKeyLt_asymm _ _ _ h]
  · rcases h : sortKeyLt s.column a b with _ | _
    · simp
    · simp [sortKeyLt_asymm _ _ _ h]

/-- The non-strict one-spec comparator is transitive. -/
theorem specLe_trans (s : SortSpec) (x y z : Row)
    (h1 : specLe s x y = true) (h2 : specLe s y z = true) :
    specLe s x z = true := by
  cases hd : s.direction <;> simp only [specLe, hd, Bool.not_eq_true'] at h1 h2 ⊢
  · rcases h : sortKeyLt s.column z x with _ | _
    · rfl
    · rcases sortKeyLt_negtrans s.column z y x h with h3 | h3
      · rw [h3] at h2
        exact h2
      · rw [h3] at h1
        exact h1
  · rcases h : sortKeyLt s.column x z with _ | _
    · rfl
    · rcases sortKeyLt_negtrans s.column x y z h with h3 | h3
      · rw [h3] at h1
        exact h1
      · rw [h3] at h2
        exact h2

/-- Lexicographic row order induced by a SortSpec list: either strictly
before under the head spec, or tied under it and lexicographically ordered
under the remaining specs.  An empty spec list orders nothing. -/
def rowsLex : List SortSpec → Row → Row → Prop
  | [] => fun _ _ => True
  | s :: rest => fun a b =>
      (specLe s a b = true ∧ specLe s b a = false) ∨
      (specLe s a b = true ∧ specLe s b a = true ∧ rowsLex rest a b)

/-- Any list is pairwise related by the trivial relation. -/
theorem pairwise_trivial {α : Type} : ∀ l : List α, l.Pairwise (fun _ _ => True)
  | [] => List.Pairwise.nil
  | _ :: t => List.Pairwise.cons (fun _ _ => trivial) (pairwise_trivial t)

/-- A stable merge sort with a total transitive comparator refines any
pairwise invariant of its input into the corresponding tie-breaking
invariant of its output. -/
theorem pairwise_mergeSort_of_pairwise {α : Type} {le : α → α → Bool}
    (trans : ∀ a b c : α, le a b → le b c → le a c)
    (total : ∀ a b : α, le a b || le b a)
    {P : α → α → Prop} :
    ∀ l : List α, l.Pairwise P →
      (l.mergeSort le).Pairwise (fun a b => le a b = true ∧ (le b a = true → P a b)) := by
  intro l
  induction l with
  | nil => intro _; simp
  | cons a t iht =>
    intro hp
    rcases List.pairwise_cons.1 hp with ⟨ha, ht⟩
    obtain ⟨l₁, l₂, e₁, e₂, hneg⟩ := List.mergeSort_cons trans total a t
    have ihp := iht ht
    rw [e₂] at ihp
    rcases List.pairwise_append.1 ihp with ⟨h₁, h₂, hcross⟩
    have hs := List.sorted_mergeSort trans total (a :: t)
    rw [e₁] at hs
    rcases List.pairwise_append.1 hs with ⟨-, hs₂, -⟩
    rw [e₁]
    refine List.pairwise_append.2 ⟨h₁, ?_, ?_⟩
    · refine List.pairwise_cons.2 ⟨?_, h₂⟩
      intro y hy
      refine ⟨List.rel_of_pairwise_cons hs₂ hy, fun _ => ?_⟩
      have hyt : y ∈ t := by
        have : y ∈ l₁ ++ l₂ := List.mem_append.2 (Or.inr hy)
        rw [← e₂] at this
        exact List.mem_mergeSort.1 this
      exact ha y hyt
    · intro x hx y hy
      rcases List.mem_cons.1 hy with rfl | hy₂
      · have hax : ¬ le y x = true := by
          have := hneg x hx
          simp only [Bool.not_eq_true'] at this
          simp [this]
        have hxa : le x y = true := by
          rcases Bool.or_eq_true_iff.1 (total x y) with h | h
          · exact h
          · exact absurd h hax
        exact ⟨hxa, fun h => absurd h hax⟩
      · exact hcross x hx y hy₂

/-- `_apply_sort`'s loop returns a permutation of its input. -/
theorem applySortSpecs_perm : ∀ (specs : List SortSpec) (rows : List Row),
    (applySortSpecs specs rows).Perm rows
  | [], rows => List.Perm.refl rows
  | s :: rest, rows =>
    ((applySortSpecs rest rows).mergeSort_perm (specLe s)).trans
      (applySortSpecs_perm rest rows)

/-- `_apply_sort`'s loop orders its output lexicographically by the spec
list: head spec primary, later specs breaking ties. -/
theorem applySortSpecs_pairwise : ∀ (specs : List SortSpec) (rows : List Row),
    (applySortSpecs specs rows).Pairwise (rowsLex specs) := by
  intro specs
  induction specs with
  | nil => intro rows; exact pairwise_trivial rows
  | cons s rest ih =>
    intro rows
    have h := pairwise_mergeSort_of_pairwise (specLe_trans s) (specLe_total s)
      (applySortSpecs rest rows) (ih rows)
    rw [applySortSpecs]
    refine h.imp ?_
    intro a b hab
    rcases hab with ⟨hle, htie⟩
    rcases hba : specLe s b a with _ | _
    · exact Or.inl ⟨hle, hba⟩
    · exact Or.inr ⟨hle, hba, htie hba⟩

/-- `_apply_sort`'s loop is stable: rows tied under every spec keep their
original relative order. -/
theorem applySortSpecs_stable : ∀ (specs : List SortSpec) (rows : List Row)
    (a b : Row), [a, b].Sublist rows →
    (∀ t ∈ specs, specLe t a b = true ∧ specLe t b a = true) →
    [a, b].Sublist (applySortSpecs specs rows) := by
  intro specs
  induction specs with
  | nil => intro rows a b hsub _; exact hsub
  | cons s rest ih =>
    intro rows a b hsub htie
    rw [applySortSpecs]
    have hinner := ih rows a b hsub (fun t ht => htie t (List.mem_cons_of_mem s ht))
    exact List.pair_sublist_mergeSort (specLe_trans s) (specLe_total s)
      (htie s (List.mem_cons_self s rest)).1 hinner

/-- Rows related by the lexicographic order are related by the head spec. -/
theorem rowsLex_head_le {s : SortSpec} {rest : List SortSpec} {a b : Row}
    (h : rowsLex (s :: rest) a b) : specLe s a b = true := by
  rcases h with ⟨h1, -⟩ | ⟨h1, -, -⟩ <;> exact h1

/-- Under an ascending spec, a null cell never precedes a non-null cell. -/
theorem specLe_null_asc {s : SortSpec} {a b : Row} (hd : s.direction = .asc)
    (h : specLe s a b = true) (ha : rowGet a s.column = .null) :
    rowGet b s.column = .null := by
  by_contra hb
  simp [specLe, hd, sortKeyLt, beq_iff_eq, ha, hb] at h

/-- Under a descending spec, a non-null cell never precedes a null cell. -/
theorem specLe_null_desc {s : SortSpec} {a b : Row} (hd : s.direction = .desc)
    (h : specLe s a b = true) (hb : rowGet b s.column = .null) :
    rowGet a s.column = .null := by
  by_contra ha
  simp [specLe, hd, sortKeyLt, beq_iff_eq, ha, hb] at h

/-- C8: `MockDataProvider._apply_sort` with a non-empty SortSpec list
returns a permutation of the input rows that is ordered lexicographically
with the first SortSpec as the primary key (later specs breaking ties), is
stable (rows tied under every spec keep their original relative order),
and places null cell values of the primary column last under ascending
direction and first under descending direction. -/
theorem applySort_sort_semantics (rows : List Row) (s : SortSpec) (rest : List SortSpec) :
    (applySort rows (some (s :: rest))).Perm rows ∧
    (applySort rows (some (s :: rest))).Pairwise (rowsLex (s :: rest)) ∧
    (∀ a b : Row, [a, b].Sublist rows →
      (∀ t ∈ s :: rest, specLe t a b = true ∧ specLe t b a = true) →
      [a, b].Sublist (applySort rows (some (s :: rest)))) ∧
    (s.direction = .asc → (applySort rows (some (s :: rest))).Pairwise
      (fun a b => rowGet a s.column = .null → rowGet b s.column = .null)) ∧
    (s.direction = .desc → (applySort rows (some (s :: rest))).Pairwise
      (fun a b => rowGet b s.column = .null → rowGet a s.column = .null)) := by
  have he : applySort rows (some (s :: rest)) = applySortSpecs (s :: rest) rows := rfl
  rw [he]
  refine ⟨applySortSpecs_perm (s :: rest) rows, applySortSpecs_pairwise (s :: rest) rows,
    fun a b hsub htie => applySortSpecs_stable (s :: rest) rows a b hsub htie, ?_, ?_⟩
  · intro hd
    exact (applySortSpecs_pairwise (s :: rest) rows).imp
      (fun h ha => specLe_null_asc hd (rowsLex_head_le h) ha)
  · intro hd
    exact (applySortSpecs_pairwise (s :: rest) rows).imp
      (fun h hb => specLe_null_desc hd (rowsLex_head_le h) hb)

/-! ## Claim C6 — canonical pivot columns -/

/-- Lexicographic list comparison is antisymmetric under `swap`. -/
theorem valueCmpList_swap : ∀ a b : List Value, valueCmpList b a = (valueCmpList a b).swap := by
  intro a
  induction a with
  | nil =>
    intro b
    cases b <;> rfl
  | cons v vs ih =>
    intro b
    cases b with
    | nil => rfl
    | cons w ws =>
      rw [valueCmpList, valueCmpList, valueCmp_swap v w]
      cases valueCmp v w <;> simp [Ordering.swap, ih ws]

/-- A strict list comparison one way is `gt` the other way. -/
theorem valueCmpList_gt_of_lt {a b : List Value}
    (h : valueCmpList b a = .lt) : valueCmpList a b = .gt := by
  rcases h3 : valueCmpList a b with _ | _ | _
  · rw [valueCmpList_swap a b, h3] at h
    exact absurd h (by decide)
  · rw [valueCmpList_swap a b, h3] at h
    exact absurd h (by decide)
  · rfl

/-- The combo comparator is total. -/
theorem comboLe_total (a b : List Value) : (comboLe a b || comboLe b a) = true := by
  rw [comboLe, comboLe]
  rcases h : valueCmpList b a with _ | _ | _
  · rw [valueCmpList_gt_of_lt h]
    rfl
  · rfl
  · rfl

/-- The combo comparator is transitive. -/
theorem comboLe_trans (a b c : List Value)
    (h1 : comboLe a b = true) (h2 : comboLe b c = true) : comboLe a c = true := by
  have hba : valueCmpList b a ≠ .lt := by
    rw [comboLe] at h1
    intro hh
    rw [hh] at h1
    exact absurd h1 (by decide)
  have hcb : valueCmpList c b ≠ .lt := by
    rw [comboLe] at h2
    intro hh
    rw [hh] at h2
    exact absurd h2 (by decide)
  have hab : valueCmpList a b ≠ .gt := by
    intro hh
    exact hba (by rw [valueCmpList_swap a b, hh]; rfl)
  have hbc : valueCmpList b c ≠ .gt := by
    intro hh
    exact hcb (by rw [valueCmpList_swap b c, hh]; rfl)
  have hac : valueCmpList a c ≠ .gt := valueCmpList_leTrans hab hbc
  rw [comboLe]
  rcases hv : valueCmpList c a with _ | _ | _
  · exact absurd (valueCmpList_gt_of_lt hv) hac
  · rfl
  · rfl

/-- Python tuple `==` is symmetric at the `Bool` level. -/
theorem pyEqList_comm (a b : List Value) : pyEqList a b = pyEqList b a := by
  by_cases h : pyCanonList a = pyCanonList b
  · rw [(pyEqList_iff_canon a b).mpr h, (pyEqList_iff_canon b a).mpr h.symm]
  · have h1 : pyEqList a b = false := by
      rw [← Bool.not_eq_true]
      exact fun hh => h ((pyEqList_iff_canon a b).mp hh)
    have h2 : pyEqList b a = false := by
      rw [← Bool.not_eq_true]
      exact fun hh => h (((pyEqList_iff_canon b a).mp hh)).symm
    rw [h1, h2]

/-- Deduplication leaves pairwise-unequal elements. -/
theorem pairwise_dedupBy {α : Type} {eq : α → α → Bool} :
    ∀ l : List α, (dedupBy eq l).Pairwise (fun a b => eq a b = false) := by
  intro l
  induction l with
  | nil => exact List.Pairwise.nil
  | cons a rest ih =>
    rw [dedupBy]
    refine List.Pairwise.cons ?_ (ih.filter _)
    intro b hb
    have := (List.mem_filter.1 hb).2
    simpa using this

/-- Python tuple `==` is preserved by `drop`. -/
theorem pyEqList_drop : ∀ (n : Nat) (a b : List Value),
    pyEqList a b = true → pyEqList (a.drop n) (b.drop n) = true := by
  intro n
  induction n with
  | zero => intro a b h; simpa using h
  | succ n ih =>
    intro a b h
    cases a with
    | nil =>
      cases b with
      | nil => exact h
      | cons w ws => simp [pyEqList] at h
    | cons v vs =>
      cases b with
      | nil => simp [pyEqList] at h
      | cons w ws =>
        rw [pyEqList, Bool.and_eq_true] at h
        exact ih vs ws h.2

/-- `bucketsAdd` keeps every existing bucket key. -/
theorem bucketsAdd_fst_sub {k : List Value} {r : Row} :
    ∀ {bs : List (List Value × List Row)} {key : List Value},
      key ∈ bs.map Prod.fst → key ∈ (bucketsAdd bs k r).map Prod.fst := by
  intro bs
  induction bs with
  | nil => intro key h; cases h
  | cons b rest ih =>
    obtain ⟨bk, brs⟩ := b
    intro key h
    rw [List.map_cons] at h
    rw [bucketsAdd]
    by_cases hb : pyEqList bk k = true
    · rw [if_pos hb, List.map_cons]
      exact h
    · rw [if_neg hb, List.map_cons]
      rcases List.mem_cons.1 h with h1 | h1
      · exact List.mem_cons.2 (Or.inl h1)
      · exact List.mem_cons.2 (Or.inr (ih h1))

/-- After `bucketsAdd`, some bucket key matches the added key. -/
theorem bucketsAdd_fst_match (k : List Value) (r : Row) :
    ∀ bs : List (List Value × List Row),
      ∃ key ∈ (bucketsAdd bs k r).map Prod.fst, pyEqList key k = true := by
  intro bs
  induction bs with
  | nil =>
    exact ⟨k, by rw [bucketsAdd]; exact List.mem_map.2 ⟨(k, [r]), List.mem_singleton.2 rfl, rfl⟩,
      pyEqList_refl k⟩
  | cons b rest ih =>
    obtain ⟨bk, brs⟩ := b
    rw [bucketsAdd]
    by_cases hb : pyEqList bk k = true
    · rw [if_pos hb]
      exact ⟨bk, List.mem_map.2 ⟨(bk, brs ++ [r]), List.mem_cons_self _ _, rfl⟩, hb⟩
    · rw [if_neg hb]
      rcases ih with ⟨key, hmem, heq⟩
      exact ⟨key, List.mem_cons_of_mem _ hmem, heq⟩

/-- Fold invariant: every processed row's key tuple has a matching bucket. -/
theorem buckets_complete_go (keys : List String) :
    ∀ (l : List Row) (bs : List (List Value × List Row)) (r : Row),
      (r ∈ l ∨ (∃ key ∈ bs.map Prod.fst, pyEqList key (keys.map (rowGet r)) = true)) →
      ∃ key ∈ (l.foldl (fun bs x => bucketsAdd bs (keys.map (rowGet x)) x) bs).map Prod.fst,
        pyEqList key (keys.map (rowGet r)) = true := by
  intro l
  induction l with
  | nil =>
    intro bs r h
    rcases h with h | h
    · cases h
    · exact h
  | cons x rest ih =>
    intro bs r h
    rw [List.foldl_cons]
    rcases h with h | h
    · rcases List.mem_cons.1 h with rfl | hrest
      · exact ih _ r (Or.inr (bucketsAdd_fst_match (keys.map (rowGet r)) r bs))
      · exact ih _ r (Or.inl hrest)
    · rcases h with ⟨key, hmem, heq⟩
      exact ih _ r (Or.inr ⟨key, bucketsAdd_fst_sub hmem, heq⟩)

/-- Every input row's key tuple has a matching bucket. -/
theorem buckets_complete {rows : List Row} {keys : List String} {r : Row}
    (h : r ∈ rows) :
    ∃ key ∈ (buckets rows keys).map Prod.fst,
      pyEqList key (keys.map (rowGet r)) = true := by
  rw [buckets]
  exact buckets_complete_go keys rows [] r (Or.inl h)

/-- Dropping the row-dim prefix of a full grouping tuple leaves the
pivot-column tuple. -/
theorem drop_keys_map {gbr gbc : List String} {f : String → Value} :
    (((gbr ++ gbc).map f).drop gbr.length) = gbc.map f := by
  rw [List.map_append]
  have h := List.drop_left (gbr.map f) (gbc.map f)
  rw [List.length_map] at h
  exact h

/-- C6: with a non-empty pivot-column list, both providers return column
descriptors in canonical order — row-group dimension columns first, then
one descriptor per `ValueSpec` for each discovered pivot-value combination
in ascending sorted order; the combinations are exactly the pivot tuples
of the filtered rows, deduplicated under Python `==`; and each pivot
descriptor's key is the `"_"`-join of the stringified combination parts
followed by the aggregate name and the measure column.  Both providers are
deterministic functions of their inputs, so equal inputs over equal data
yield equal keys. -/
theorem pivot_columns_canonical
    (data table : List Row) (lookup : List String)
    (gbr : List String) (c : String) (gbcRest : List String)
    (values : List ValueSpec) (fg : Option FilterGroup)
    (srt : Option (List SortSpec)) (limit : Option Nat) (offset : Nat) :
    (∃ combos : List (List Value),
      (mockAggregate data gbr (c :: gbcRest) values fg srt limit offset).columns
        = gbr.map dimColumn ++ combos.flatMap (fun combo => values.map (pivotColumn combo)) ∧
      combos.Pairwise (fun a b => comboLe a b = true) ∧
      combos.Pairwise (fun a b => pyEqList a b = false) ∧
      (∀ combo ∈ combos, ∃ r ∈ applyFilter data fg,
        pyEqList combo ((c :: gbcRest).map (rowGet r)) = true) ∧
      (∀ r ∈ applyFilter data fg, ∃ combo ∈ combos,
        pyEqList combo ((c :: gbcRest).map (rowGet r)) = true)) ∧
    (∀ (res : AggregateResult) (pred : Option SqlPred),
      compileOptFilter fg lookup = .ok pred →
      sqlPivotAggregate table lookup gbr (c :: gbcRest) values fg srt limit offset = .ok res →
      ∃ combos : List (List Value),
        res.columns
          = gbr.map dimColumn ++ combos.flatMap (fun combo => values.map (pivotColumn combo)) ∧
        combos.Pairwise (fun a b => comboLe a b = true) ∧
        combos.Pairwise (fun a b => pyEqList a b = false) ∧
        (∀ combo ∈ combos, ∃ r ∈ sqlWhere table pred,
          pyEqList combo ((c :: gbcRest).map (rowGet r)) = true) ∧
        (∀ r ∈ sqlWhere table pred, ∃ combo ∈ combos,
          pyEqList combo ((c :: gbcRest).map (rowGet r)) = true)) ∧
    (∀ (combo : List Value) (vs : ValueSpec),
      (pivotColumn combo vs).key
        = String.intercalate "_" (combo.map pyStr ++ [aggName vs.agg, vs.column])) := by
  have hsymm : ∀ {x y : List Value}, pyEqList x y = false → pyEqList y x = false := by
    intro x y h
    rw [pyEqList_comm]
    exact h
  refine ⟨?_, ?_, fun combo vs => rfl⟩
  · refine ⟨(dedupBy pyEqList ((buckets (applyFilter data fg) (gbr ++ (c :: gbcRest))).map
      (fun b => b.1.drop gbr.length))).mergeSort comboLe, ?_, ?_, ?_, ?_, ?_⟩
    · rfl
    · exact (List.sorted_mergeSort comboLe_trans comboLe_total _).imp (fun h => h)
    · exact (List.Perm.pairwise_iff (fun h => hsymm h) (List.mergeSort_perm _ comboLe)).mpr
        (pairwise_dedupBy _)
    · intro combo hcombo
      have h1 := mem_of_mem_dedupBy (List.mem_mergeSort.1 hcombo)
      rcases List.mem_map.1 h1 with ⟨e, he, heq⟩
      rcases buckets_key_mem e he with ⟨r, hr, hkey⟩
      refine ⟨r, hr, ?_⟩
      rw [← heq, hkey, drop_keys_map]
      exact pyEqList_refl _
    · intro r hr
      rcases @buckets_complete _ (gbr ++ (c :: gbcRest)) _ hr with ⟨key, hkm, hkeq⟩
      rcases List.mem_map.1 hkm with ⟨e, he, hef⟩
      have hdrop : pyEqList (e.1.drop gbr.length)
          ((c :: gbcRest).map (rowGet r)) = true := by
        have h2 := pyEqList_drop gbr.length key ((gbr ++ (c :: gbcRest)).map (rowGet r)) hkeq
        rw [drop_keys_map] at h2
        rw [← hef] at h2
        exact h2
      have hmem : e.1.drop gbr.length ∈
          (buckets (applyFilter data fg) (gbr ++ (c :: gbcRest))).map
            (fun b => b.1.drop gbr.length) :=
        List.mem_map.2 ⟨e, he, rfl⟩
      rcases exists_rep_dedupBy pyEqList_refl (fun _ _ _ => pyEqList_trans) hmem
        with ⟨y, hy, hyeq⟩
      exact ⟨y, List.mem_mergeSort.2 hy, pyEqList_trans hyeq hdrop⟩
  · intro res pred hc hres
    rw [sqlPivotAggregate.eq_def] at hres
    split at hres
    · exact Except.noConfusion hres
    · rename_i pred2 hc2
      rw [hc] at hc2
      injection hc2 with hpred
      subst hpred
      split at hres
      · exact Except.noConfusion hres
      · split at hres
        · exact Except.noConfusion hres
        · split at hres
          · exact Except.noConfusion hres
          · injection hres with hres2
            subst hres2
            refine ⟨sqlDiscoverCombos table pred (c :: gbcRest), rfl, ?_, ?_, ?_, ?_⟩
            · exact (List.sorted_mergeSort comboLe_trans comboLe_total _).imp (fun h => h)
            · exact (List.Perm.pairwise_iff (fun h => hsymm h) (List.mergeSort_perm _ comboLe)).mpr
                (pairwise_dedupBy _)
            · intro combo hcombo
              have h1 := mem_of_mem_dedupBy (List.mem_mergeSort.1 hcombo)
              rcases List.mem_map.1 h1 with ⟨r, hr, heq⟩
              refine ⟨r, hr, ?_⟩
              rw [← heq]
              exact pyEqList_refl _
            · intro r hr
              have hmem : (c :: gbcRest).map (rowGet r) ∈
                  (sqlWhere table pred).map (fun x => (c :: gbcRest).map (rowGet x)) :=
                List.mem_map.2 ⟨r, hr, rfl⟩
              rcases exists_rep_dedupBy pyEqList_refl (fun _ _ _ => pyEqList_trans) hmem
                with ⟨y, hy, hyeq⟩
              exact ⟨y, List.mem_mergeSort.2 hy, hyeq⟩

/-- C6 witness: the canonical-columns theorem applied to a concrete
one-row SQL pivot, its filter-compilation and query hypotheses discharged
by computation. -/
theorem pivot_columns_canonical_witness :
    compileOptFilter none ["r", "p", "a"] = Except.ok none ∧
    sqlPivotAggregate [[("r", Value.str "N"), ("p", Value.str "W"), ("a", Value.num 1)]]
        ["r", "p", "a"] ["r"] ["p"] [{ column := "a", agg := .first }] none none none 0 =
      .ok { columns := [{ key := "r", header := "r" },
              pivotColumn [Value.str "W"] { column := "a", agg := .first }],
            rows := [[("r", Value.str "N"), ("W_first_a", Value.num 1)]],
            total := 1 } ∧
    (∃ combos : List (List Value),
      ({ columns := [{ key := "r", header := "r" },
            pivotColumn [Value.str "W"] { column := "a", agg := .first }],
          rows := [[("r", Value.str "N"), ("W_first_a", Value.num 1)]],
          total := 1 : AggregateResult }).columns
        = ["r"].map dimColumn ++
          combos.flatMap (fun combo =>
            [{ column := "a", agg := .first : ValueSpec }].map (pivotColumn combo)) ∧
      combos.Pairwise (fun a b => comboLe a b = true) ∧
      combos.Pairwise (fun a b => pyEqList a b = false) ∧
      (∀ combo ∈ combos,
        ∃ r ∈ sqlWhere [[("r", Value.str "N"), ("p", Value.str "W"), ("a", Value.num 1)]] none,
          pyEqList combo (["p"].map (rowGet r)) = true) ∧
      (∀ r ∈ sqlWhere [[("r", Value.str "N"), ("p", Value.str "W"), ("a", Value.num 1)]] none,
        ∃ combo ∈ combos, pyEqList combo (["p"].map (rowGet r)) = true)) := by
  have hcombos : sqlDiscoverCombos [[("r", Value.str "N"), ("p", Value.str "W"), ("a", Value.num 1)]]
      none ["p"] = [[Value.str "W"]] := by
    rw [sqlDiscoverCombos]
    rw [show dedupBy pyEqList
        ((sqlWhere [[("r", Value.str "N"), ("p", Value.str "W"), ("a", Value.num 1)]] none).map
          (fun r => ["p"].map (rowGet r))) = [[Value.str "W"]] from rfl]
    exact List.mergeSort_singleton _
  have hpivot : sqlPivotAggregate [[("r", Value.str "N"), ("p", Value.str "W"), ("a", Value.num 1)]]
      ["r", "p", "a"] ["r"] ["p"] [{ column := "a", agg := .first }] none none none 0 =
      .ok { columns := [{ key := "r", header := "r" },
              pivotColumn [Value.str "W"] { column := "a", agg := .first }],
            rows := [[("r", Value.str "N"), ("W_first_a", Value.num 1)]],
            total := 1 } := by
    have step : sqlPivotAggregate [[("r", Value.str "N"), ("p", Value.str "W"), ("a", Value.num 1)]]
        ["r", "p", "a"] ["r"] ["p"] [{ column := "a", agg := .first }] none none none 0 =
        .ok { columns := ["r"].map dimColumn ++
                (sqlDiscoverCombos [[("r", Value.str "N"), ("p", Value.str "W"), ("a", Value.num 1)]] none ["p"]).flatMap
                  (fun combo => [{ column := "a", agg := .first : ValueSpec }].map (pivotColumn combo)),
              rows := sqlLimitOffset (sqlApplySort
                ((sqlGroups (sqlWhere [[("r", Value.str "N"), ("p", Value.str "W"), ("a", Value.num 1)]] none) ["r"]).map
                  (fun key => ["r"].zip key ++
                    (sqlDiscoverCombos [[("r", Value.str "N"), ("p", Value.str "W"), ("a", Value.num 1)]] none ["p"]).flatMap
                      (fun combo => [{ column := "a", agg := .first : ValueSpec }].map
                        (fun vs => (pivotColKey combo vs,
                          sqlComputeAgg vs.agg
                            ((sqlGroupRows (sqlWhere [[("r", Value.str "N"), ("p", Value.str "W"), ("a", Value.num 1)]] none) ["r"] key).map
                              (sqlCaseCell ["p"] combo vs.column))))))) none) none 0,
              total := (sqlGroups (sqlWhere [[("r", Value.str "N"), ("p", Value.str "W"), ("a", Value.num 1)]] none) ["r"]).length } := rfl
    rw [step, hcombos]
    rfl
  exact ⟨rfl, hpivot,
    (pivot_columns_canonical [] [[("r", Value.str "N"), ("p", Value.str "W"), ("a", Value.num 1)]]
      ["r", "p", "a"] ["r"] "p" [] [{ column := "a", agg := .first }] none none none 0).2.1
      _ none rfl hpivot⟩

/-! ## Claim C1 — filter equivalence -/

/-- Boolean equality agrees with `compare … = .eq` on a linear order. -/
theorem ordBeqEq {α : Type} [LinearOrder α] [BEq α] [LawfulBEq α] (x y : α) :
    (x == y) = (compare x y == Ordering.eq) := by
  by_cases h : x = y
  · subst h
    rw [compare_eq_iff_eq.2 rfl]
    have h1 : (x == x) = true := by simp
    rw [h1]
    rfl
  · rw [beq_eq_false_iff_ne.2 h]
    have hc : compare x y ≠ .eq := fun hh => h (compare_eq_iff_eq.1 hh)
    rcases hcc : compare x y with _ | _ | _
    · rfl
    · exact absurd hcc hc
    · rfl

/-- Python `==` agrees with Python rich comparison wherever the latter is
defined: equality holds exactly on the `eq` ordering. -/
theorem pyEq_of_pyCmp : ∀ a b : Value, ∀ o : Ordering,
    pyCmp? a b = some o → pyEq a b = (o == Ordering.eq) := by
  intro a
  refine @Value.rec
    (fun a => ∀ (b : Value) (o : Ordering), pyCmp? a b = some o → pyEq a b = (o == Ordering.eq))
    (fun l => ∀ (bs : List Value) (o : Ordering),
      pyCmpList? l bs = some o → pyEqList l bs = (o == Ordering.eq)) ?_ ?_ ?_ ?_ ?_ ?_ ?_ a
  · intro b o h
    cases b <;> simp [pyCmp?, Value.asNum?] at h
  · intro a b o h
    cases b with
    | null => simp [pyCmp?, Value.asNum?] at h
    | bool c =>
      simp only [pyCmp?, Value.asNum?] at h
      injection h with h
      rw [← h]
      simp only [pyEq, Value.asNum?]
      exact ordBeqEq _ _
    | num q =>
      simp only [pyCmp?, Value.asNum?] at h
      injection h with h
      rw [← h]
      simp only [pyEq, Value.asNum?]
      exact ordBeqEq _ _
    | str t => simp [pyCmp?, Value.asNum?] at h
    | list l => simp [pyCmp?, Value.asNum?] at h
  · intro x b o h
    cases b with
    | null => simp [pyCmp?, Value.asNum?] at h
    | bool c =>
      simp only [pyCmp?, Value.asNum?] at h
      injection h with h
      rw [← h]
      simp only [pyEq, Value.asNum?]
      exact ordBeqEq _ _
    | num q =>
      simp only [pyCmp?, Value.asNum?] at h
      injection h with h
      rw [← h]
      simp only [pyEq, Value.asNum?]
      exact ordBeqEq _ _
    | str t => simp [pyCmp?, Value.asNum?] at h
    | list l => simp [pyCmp?, Value.asNum?] at h
  · intro s b o h
    cases b with
    | null => simp [pyCmp?, Value.asNum?] at h
    | bool c => simp [pyCmp?, Value.asNum?] at h
    | num q => simp [pyCmp?, Value.asNum?] at h
    | str t =>
      simp only [pyCmp?] at h
      injection h with h
      rw [← h]
      simp only [pyEq]
      exact ordBeqEq _ _
    | list l => simp [pyCmp?, Value.asNum?] at h
  · intro vs ih b o h
    cases b with
    | null => simp [pyCmp?, Value.asNum?] at h
    | bool c => simp [pyCmp?, Value.asNum?] at h
    | num q => simp [pyCmp?, Value.asNum?] at h
    | str t => simp [pyCmp?, Value.asNum?] at h
    | list bs =>
      simp only [pyCmp?] at h
      simp only [pyEq]
      exact ih bs o h
  · intro bs o h
    cases bs with
    | nil =>
      rw [pyCmpList?] at h
      injection h with h
      rw [← h]
      rfl
    | cons w ws =>
      rw [pyCmpList?] at h
      injection h with h
      rw [← h]
      rfl
  · intro v vs ihv ihvs bs o h
    cases bs with
    | nil =>
      rw [pyCmpList?] at h
      injection h with h
      rw [← h]
      rfl
    | cons w ws =>
      rw [pyCmpList?] at h
      rw [pyEqList]
      rcases hvw : pyCmp? v w with _ | o'
      · rw [hvw] at h
        exact absurd h (by simp)
      · rw [hvw] at h
        have hv := ihv w o' hvw
        rcases o' with _ | _ | _
        · injection h with h
          rw [← h, hv]
          rfl
        · rw [hv]
          have he : (Ordering.eq == Ordering.eq) = true := rfl
          rw [he, Bool.true_and]
          exact ihvs ws o h
        · injection h with h
          rw [← h, hv]
          rfl

/-- `TV.not` of a definite value. -/
theorem tvNot_ofBool (b : Bool) : TV.not (TV.ofBool b) = TV.ofBool (!b) := by
  cases b <;> rfl

/-- `TV.and` of definite values. -/
theorem tvAnd_ofBool (a b : Bool) : TV.and (TV.ofBool a) (TV.ofBool b) = TV.ofBool (a && b) := by
  cases a <;> cases b <;> rfl

/-- `TV.or` of definite values. -/
theorem tvOr_ofBool (a b : Bool) : TV.or (TV.ofBool a) (TV.ofBool b) = TV.ofBool (a || b) := by
  cases a <;> cases b <;> rfl

/-- Python `== None` coincides with structural nullness. -/
theorem pyEq_null_right : ∀ cell : Value, pyEq cell .null = (cell == Value.null) := by
  intro cell
  cases cell <;> rfl

/-- The per-row definiteness conditions under which the two filter
executors agree (formalising the "three-valued-to-two-valued NULL
reconciliation" scope): comparisons have non-null comparable operands
(or an `EQ`/`NEQ` bound of `None`, which SQLAlchemy folds to
`IS [NOT] NULL`), substring operators apply to string cells with non-null
bounds, `BETWEEN` has an exactly-two-element bound with non-null
comparable endpoints, `IN` has a list bound of non-null comparable
elements, and `IS_NULL`/`IS_NOT_NULL` are unrestricted. -/
def conditionWF (c : FilterCondition) (row : Row) : Bool :=
  let cell := rowGet row c.column
  match c.operator with
  | .eq | .neq =>
      (c.value == Value.null) ||
        (cell != Value.null && c.value != Value.null && (pyCmp? cell c.value).isSome)
  | .gt | .lt | .gte | .lte =>
      cell != Value.null && c.value != Value.null && (pyCmp? cell c.value).isSome
  | .contains | .startswith | .endswith =>
      c.value != Value.null && (match cell with | .str _ => true | _ => false)
  | .isNull | .isNotNull => true
  | .between =>
      match c.value with
      | .list [lo, hi] =>
          cell != Value.null && lo != Value.null && hi != Value.null &&
            (pyCmp? cell lo).isSome && (pyCmp? cell hi).isSome
      | _ => false
  | .inOp =>
      match c.value with
      | .list vs =>
          cell != Value.null &&
            vs.all (fun x => x != Value.null && (pyCmp? cell x).isSome)
      | _ => false

mutual
/-- Row-level definiteness of a whole filter group. -/
def groupWF : FilterGroup → Row → Bool
  | .mk _ _ conds gs, row => conds.all (fun c => conditionWF c row) && groupsWF gs row

/-- Row-level definiteness of a list of nested groups. -/
def groupsWF : List FilterGroup → Row → Bool
  | [], _ => true
  | g :: gs, row => groupWF g row && groupsWF gs row
end

/-- Three-valued `IN` collapses to the Python membership test when every
element comparison is definite. -/
theorem sqlInTV_of_pointwise (cell : Value) (vs : List Value)
    (hpoint : ∀ x ∈ vs, sqlCmpTV .eq cell x = TV.ofBool (pyEq cell x)) :
    sqlInTV cell vs = TV.ofBool (vs.any (fun x => pyEq cell x)) := by
  cases vs with
  | nil => rfl
  | cons a rest =>
    by_cases hany : (a :: rest).any (fun x => pyEq cell x) = true
    · have ht : (a :: rest).any (fun v => sqlCmpTV .eq cell v == TV.t) = true := by
        rcases List.any_eq_true.1 hany with ⟨x, hx, hpx⟩
        refine List.any_eq_true.2 ⟨x, hx, ?_⟩
        rw [hpoint x hx, hpx]
        rfl
      rw [sqlInTV, hany]
      simp only [List.isEmpty_cons, ht]
      rfl
    · rw [Bool.not_eq_true] at hany
      have hallf : ∀ x ∈ a :: rest, pyEq cell x = false := by
        intro x hx
        rcases hb : pyEq cell x with _ | _
        · rfl
        · exact absurd (List.any_eq_true.2 ⟨x, hx, hb⟩) (by rw [hany]; decide)
      have hall : (a :: rest).all (fun v => sqlCmpTV .eq cell v == TV.f) = true := by
        rw [List.all_eq_true]
        intro x hx
        rw [hpoint x hx, hallf x hx]
        rfl
      have hnt : (a :: rest).any (fun v => sqlCmpTV .eq cell v == TV.t) = false := by
        rw [← Bool.not_eq_true, List.any_eq_true]
        rintro ⟨x, hx, hpx⟩
        rw [hpoint x hx, hallf x hx] at hpx
        exact absurd hpx (by decide)
      rw [sqlInTV, hany]
      simp only [List.isEmpty_cons, hnt, hall]
      rfl

/-- A definite SQL comparison coincides with `_safe_cmp` under the
corresponding ordering test. -/
theorem sqlCmpTV_safeCmp (op : SqlCmp) (test : Ordering → Bool)
    (htest : ∀ o : Ordering,
      (match op with
        | .eq => o == .eq | .neq => o != .eq | .gt => o == .gt
        | .lt => o == .lt | .gte => o != .lt | .lte => o != .gt) = test o)
    (cell v : Value) (hcell : (cell == Value.null) = false)
    (hv : (v == Value.null) = false)
    (o : Ordering) (hcmp : pyCmp? cell v = some o) :
    sqlCmpTV op cell v = TV.ofBool (safeCmp cell v test) := by
  rw [sqlCmpTV, safeCmp, hcell, hv]
  simp only [Bool.or_self, Bool.false_eq_true, if_false]
  rw [sqlCompare, hcmp]
  cases op <;> exact congrArg TV.ofBool (htest o)

/-- One compiled condition evaluates, under three-valued SQL semantics, to
the definite embedding of the row evaluator's verdict — given the
condition is definite on the row. -/
theorem compileCondition_eval (lookup : List String) (c : FilterCondition)
    (row : Row) (p : SqlPred)
    (hc : compileCondition lookup c = .ok p)
    (hwf : conditionWF c row = true) :
    sqlEvalPred p row = TV.ofBool (c.evaluate row) := by
  obtain ⟨col, op, v, neg⟩ := c
  by_cases hcol : lookup.contains col = true
  · cases op with
    | eq =>
      simp only [compileCondition, hcol, Bool.not_true, Bool.false_eq_true, if_false,
        Except.ok.injEq] at hc
      subst hc
      simp only [conditionWF] at hwf
      have hcore : sqlEvalPred (if v = Value.null then SqlPred.isNull col
          else SqlPred.cmp .eq col v) row
          = TV.ofBool (pyEq (rowGet row col) v) := by
        by_cases hv : v = Value.null
        · subst hv
          rw [if_pos rfl]
          simp only [sqlEvalPred]
          rw [pyEq_null_right]
        · have hvb : (v == Value.null) = false := beq_eq_false_iff_ne.2 hv
          rw [if_neg hv]
          rw [hvb] at hwf
          simp only [Bool.false_or, Bool.and_eq_true, bne_iff_ne, ne_eq,
            Option.isSome_iff_exists] at hwf
          rcases hwf with ⟨⟨hcell, -⟩, o, hcmp⟩
          have hcellb : (rowGet row col == Value.null) = false :=
            beq_eq_false_iff_ne.2 hcell
          simp only [sqlEvalPred]
          rw [sqlCmpTV, hcellb, hvb]
          simp only [Bool.or_self, Bool.false_eq_true, if_false]
          rw [sqlCompare, hcmp, pyEq_of_pyCmp _ _ _ hcmp]
      cases neg <;>
        simp [FilterCondition.evaluate, FilterCondition.matches, sqlEvalPred,
          hcore, tvNot_ofBool]
    | neq =>
      simp only [compileCondition, hcol, Bool.not_true, Bool.false_eq_true, if_false,
        Except.ok.injEq] at hc
      subst hc
      simp only [conditionWF] at hwf
      have hcore : sqlEvalPred (if v = Value.null then SqlPred.isNotNull col
          else SqlPred.cmp .neq col v) row
          = TV.ofBool (!(pyEq (rowGet row col) v)) := by
        by_cases hv : v = Value.null
        · subst hv
          rw [if_pos rfl]
          simp only [sqlEvalPred]
          rw [pyEq_null_right]
          rfl
        · have hvb : (v == Value.null) = false := beq_eq_false_iff_ne.2 hv
          rw [if_neg hv]
          rw [hvb] at hwf
          simp only [Bool.false_or, Bool.and_eq_true, bne_iff_ne, ne_eq,
            Option.isSome_iff_exists] at hwf
          rcases hwf with ⟨⟨hcell, -⟩, o, hcmp⟩
          have hcellb : (rowGet row col == Value.null) = false :=
            beq_eq_false_iff_ne.2 hcell
          simp only [sqlEvalPred]
          rw [sqlCmpTV, hcellb, hvb]
          simp only [Bool.or_self, Bool.false_eq_true, if_false]
          rw [sqlCompare, hcmp]
          show TV.ofBool (o != Ordering.eq) = TV.ofBool (!(pyEq (rowGet row col) v))
          rw [pyEq_of_pyCmp _ _ _ hcmp]
          rfl
      cases neg <;>
        simp [FilterCondition.evaluate, FilterCondition.matches, sqlEvalPred,
          hcore, tvNot_ofBool]
    | gt =>
      simp only [compileCondition, hcol, Bool.not_true, Bool.false_eq_true, if_false,
        Except.ok.injEq] at hc
      subst hc
      simp only [conditionWF, Bool.and_eq_true, bne_iff_ne, ne_eq,
        Option.isSome_iff_exists] at hwf
      rcases hwf with ⟨⟨hcell, hvn⟩, o, hcmp⟩
      have hcore : sqlCmpTV .gt (rowGet row col) v
          = TV.ofBool (safeCmp (rowGet row col) v (· == .gt)) :=
        sqlCmpTV_safeCmp .gt _ (fun o => rfl) _ _
          (beq_eq_false_iff_ne.2 hcell) (beq_eq_false_iff_ne.2 hvn) o hcmp
      cases neg <;>
        simp [FilterCondition.evaluate, FilterCondition.matches, sqlEvalPred,
          hcore, tvNot_ofBool]
    | lt =>
      simp only [compileCondition, hcol, Bool.not_true, Bool.false_eq_true, if_false,
        Except.ok.injEq] at hc
      subst hc
      simp only [conditionWF, Bool.and_eq_true, bne_iff_ne, ne_eq,
        Option.isSome_iff_exists] at hwf
      rcases hwf with ⟨⟨hcell, hvn⟩, o, hcmp⟩
      have hcore : sqlCmpTV .lt (rowGet row col) v
          = TV.ofBool (safeCmp (rowGet row col) v (· == .lt)) :=
        sqlCmpTV_safeCmp .lt _ (fun o => rfl) _ _
          (beq_eq_false_iff_ne.2 hcell) (beq_eq_false_iff_ne.2 hvn) o hcmp
      cases neg <;>
        simp [FilterCondition.evaluate, FilterCondition.matches, sqlEvalPred,
          hcore, tvNot_ofBool]
    | gte =>
      simp only [compileCondition, hcol, Bool.not_true, Bool.false_eq_true, if_false,
        Except.ok.injEq] at hc
      subst hc
      simp only [conditionWF, Bool.and_eq_true, bne_iff_ne, ne_eq,
        Option.isSome_iff_exists] at hwf
      rcases hwf with ⟨⟨hcell, hvn⟩, o, hcmp⟩
      have hcore : sqlCmpTV .gte (rowGet row col) v
          = TV.ofBool (safeCmp (rowGet row col) v (· != .lt)) :=
        sqlCmpTV_safeCmp .gte _ (fun o => rfl) _ _
          (beq_eq_false_iff_ne.2 hcell) (beq_eq_false_iff_ne.2 hvn) o hcmp
      cases neg <;>
        simp [FilterCondition.evaluate, FilterCondition.matches, sqlEvalPred,
          hcore, tvNot_ofBool]
    | lte =>
      simp only [compileCondition, hcol, Bool.not_true, Bool.false_eq_true, if_false,
        Except.ok.injEq] at hc
      subst hc
      simp only [conditionWF, Bool.and_eq_true, bne_iff_ne, ne_eq,
        Option.isSome_iff_exists] at hwf
      rcases hwf with ⟨⟨hcell, hvn⟩, o, hcmp⟩
      have hcore : sqlCmpTV .lte (rowGet row col) v
          = TV.ofBool (safeCmp (rowGet row col) v (· != .gt)) :=
        sqlCmpTV_safeCmp .lte _ (fun o => rfl) _ _
          (beq_eq_false_iff_ne.2 hcell) (beq_eq_false_iff_ne.2 hvn) o hcmp
      cases neg <;>
        simp [FilterCondition.evaluate, FilterCondition.matches, sqlEvalPred,
          hcore, tvNot_ofBool]
    | isNull =>
      simp only [compileCondition, hcol, Bool.not_true, Bool.false_eq_true, if_false,
        Except.ok.injEq] at hc
      subst hc
      cases neg <;>
        simp [FilterCondition.evaluate, FilterCondition.matches, sqlEvalPred,
          tvNot_ofBool]
    | isNotNull =>
      simp only [compileCondition, hcol, Bool.not_true, Bool.false_eq_true, if_false,
        Except.ok.injEq] at hc
      subst hc
      cases neg <;>
        simp [FilterCondition.evaluate, FilterCondition.matches, sqlEvalPred,
          tvNot_ofBool]
    | contains =>
      simp only [compileCondition, hcol, Bool.not_true, Bool.false_eq_true, if_false,
        Except.ok.injEq] at hc
      subst hc
      simp only [conditionWF, Bool.and_eq_true, bne_iff_ne, ne_eq] at hwf
      rcases hwf with ⟨hvn, hcellstr⟩
      rcases hcell : rowGet row col with _ | _ | _ | s | _ <;> rw [hcell] at hcellstr <;>
        try simp at hcellstr
      have hvb : (v != Value.null) = true := bne_iff_ne.2 hvn
      cases neg <;>
        simp [FilterCondition.evaluate, FilterCondition.matches, hcell, hvb,
          sqlEvalPred, tvNot_ofBool, pyStr,
          show (Value.str s != Value.null) = true from rfl,
          show sqlLikeTV .contains (Value.str s) (pyStr v)
            = TV.ofBool (charsInfix (pyStr v).toList s.toList) from rfl]
    | startswith =>
      simp only [compileCondition, hcol, Bool.not_true, Bool.false_eq_true, if_false,
        Except.ok.injEq] at hc
      subst hc
      simp only [conditionWF, Bool.and_eq_true, bne_iff_ne, ne_eq] at hwf
      rcases hwf with ⟨hvn, hcellstr⟩
      rcases hcell : rowGet row col with _ | _ | _ | s | _ <;> rw [hcell] at hcellstr <;>
        try simp at hcellstr
      have hvb : (v != Value.null) = true := bne_iff_ne.2 hvn
      cases neg <;>
        simp [FilterCondition.evaluate, FilterCondition.matches, hcell, hvb,
          sqlEvalPred, tvNot_ofBool, pyStr,
          show (Value.str s != Value.null) = true from rfl,
          show sqlLikeTV .startswith (Value.str s) (pyStr v)
            = TV.ofBool (charsPrefix (pyStr v).toList s.toList) from rfl]
    | endswith =>
      simp only [compileCondition, hcol, Bool.not_true, Bool.false_eq_true, if_false,
        Except.ok.injEq] at hc
      subst hc
      simp only [conditionWF, Bool.and_eq_true, bne_iff_ne, ne_eq] at hwf
      rcases hwf with ⟨hvn, hcellstr⟩
      rcases hcell : rowGet row col with _ | _ | _ | s | _ <;> rw [hcell] at hcellstr <;>
        try simp at hcellstr
      have hvb : (v != Value.null) = true := bne_iff_ne.2 hvn
      cases neg <;>
        simp [FilterCondition.evaluate, FilterCondition.matches, hcell, hvb,
          sqlEvalPred, tvNot_ofBool, pyStr,
          show (Value.str s != Value.null) = true from rfl,
          show sqlLikeTV .endswith (Value.str s) (pyStr v)
            = TV.ofBool (charsSuffix (pyStr v).toList s.toList) from rfl]
    | between =>
      simp only [conditionWF] at hwf
      rcases hv : v with _ | _ | _ | _ | vl
      · rw [hv] at hwf; simp at hwf
      · rw [hv] at hwf; simp at hwf
      · rw [hv] at hwf; simp at hwf
      · rw [hv] at hwf; simp at hwf
      · rcases vl with _ | ⟨lo, vl2⟩
        · rw [hv] at hwf; simp at hwf
        rcases vl2 with _ | ⟨hi, vl3⟩
        · rw [hv] at hwf; simp at hwf
        rcases vl3 with _ | ⟨x, vl4⟩
        swap
        · rw [hv] at hwf; simp at hwf
        rw [hv] at hwf hc
        simp only [compileCondition, hcol, Bool.not_true, Bool.false_eq_true, if_false,
          Except.ok.injEq] at hc
        subst hc
        simp only [Bool.and_eq_true, bne_iff_ne, ne_eq,
          Option.isSome_iff_exists] at hwf
        rcases hwf with ⟨⟨⟨⟨hcell, hlo⟩, hhi⟩, o₁, hcmp₁⟩, o₂, hcmp₂⟩
        have hcellb : (rowGet row col != Value.null) = true := bne_iff_ne.2 hcell
        have hcore : TV.and (sqlCmpTV .gte (rowGet row col) lo)
              (sqlCmpTV .lte (rowGet row col) hi)
            = TV.ofBool (safeCmp (rowGet row col) lo (· != .lt)
                && safeCmp (rowGet row col) hi (· != .gt)) := by
          rw [sqlCmpTV_safeCmp .gte _ (fun o => rfl) _ _
              (beq_eq_false_iff_ne.2 hcell) (beq_eq_false_iff_ne.2 hlo) o₁ hcmp₁,
            sqlCmpTV_safeCmp .lte _ (fun o => rfl) _ _
              (beq_eq_false_iff_ne.2 hcell) (beq_eq_false_iff_ne.2 hhi) o₂ hcmp₂,
            tvAnd_ofBool]
        cases neg <;>
          simp [FilterCondition.evaluate, FilterCondition.matches, hcellb,
            sqlEvalPred, hcore, tvNot_ofBool]
    | inOp =>
      simp only [conditionWF] at hwf
      rcases hv : v with _ | _ | _ | _ | vs
      · rw [hv] at hwf; simp at hwf
      · rw [hv] at hwf; simp at hwf
      · rw [hv] at hwf; simp at hwf
      · rw [hv] at hwf; simp at hwf
      · rw [hv] at hwf hc
        simp only [compileCondition, hcol, Bool.not_true, Bool.false_eq_true, if_false,
          Except.ok.injEq] at hc
        subst hc
        simp only [Bool.and_eq_true, List.all_eq_true] at hwf
        rcases hwf with ⟨-, hall⟩
        have hpoint : ∀ x ∈ vs, sqlCmpTV .eq (rowGet row col) x
            = TV.ofBool (pyEq (rowGet row col) x) := by
          intro x hx
          rcases hall x hx with hx2
          simp only [Bool.and_eq_true, bne_iff_ne, ne_eq,
            Option.isSome_iff_exists] at hx2
          rcases hx2 with ⟨hxn, o, hcmp⟩
          have hcellb : (rowGet row col == Value.null) = false := by
            rcases hq : rowGet row col with _ | _ | _ | _ | _
            · rw [hq] at hcmp
              rcases hxq : x with _ | _ | _ | _ | _ <;> rw [hxq] at hcmp <;>
                simp [pyCmp?, Value.asNum?] at hcmp
            all_goals rfl
          rw [sqlCmpTV, hcellb, beq_eq_false_iff_ne.2 hxn]
          simp only [Bool.or_self, Bool.false_eq_true, if_false]
          rw [sqlCompare, hcmp, pyEq_of_pyCmp _ _ _ hcmp]
        have hcore : sqlInTV (rowGet row col) vs
            = TV.ofBool (vs.any (fun x => pyEq (rowGet row col) x)) :=
          sqlInTV_of_pointwise _ _ hpoint
        cases neg <;>
          simp [FilterCondition.evaluate, FilterCondition.matches,
            sqlEvalPred, hcore, tvNot_ofBool]
  · rw [Bool.not_eq_true] at hcol
    have hmem : ¬ (col ∈ lookup) := by simpa using hcol
    simp [compileCondition, hmem] at hc

/-- Compiling a condition list yields pointwise-equivalent predicates. -/
theorem compileConditions_eval (lookup : List String) (row : Row) :
    ∀ (conds : List FilterCondition) (ps : List SqlPred),
      compileConditions lookup conds = .ok ps →
      (∀ c ∈ conds, conditionWF c row = true) →
      List.Forall₂ (fun p b => sqlEvalPred p row = TV.ofBool b) ps
        (conds.map (fun c => c.evaluate row)) := by
  intro conds
  induction conds with
  | nil =>
    intro ps hps _
    rw [compileConditions] at hps
    injection hps with hps
    subst hps
    exact List.Forall₂.nil
  | cons c rest ih =>
    intro ps hps hwf
    rw [compileConditions] at hps
    split at hps
    · exact Except.noConfusion hps
    · rename_i p hp
      split at hps
      · exact Except.noConfusion hps
      · rename_i qs hqs
        injection hps with hps
        subst hps
        exact List.Forall₂.cons
          (compileCondition_eval lookup c row p hp (hwf c (List.mem_cons_self _ _)))
          (ih qs hqs (fun x hx => hwf x (List.mem_cons_of_mem _ hx)))

/-- `sa.and_` of pointwise-definite predicates is the definite embedding of
the boolean conjunction. -/
theorem sqlEvalAnd_forall₂ {row : Row} : ∀ {ps : List SqlPred} {bs : List Bool},
    List.Forall₂ (fun p b => sqlEvalPred p row = TV.ofBool b) ps bs →
    sqlEvalAnd ps row = TV.ofBool (bs.all id) := by
  intro ps bs h
  induction h with
  | nil => rfl
  | cons h1 _ ih =>
    rw [sqlEvalAnd, h1, ih, tvAnd_ofBool]
    rfl

/-- `sa.or_` of pointwise-definite predicates is the definite embedding of
the boolean disjunction. -/
theorem sqlEvalOr_forall₂ {row : Row} : ∀ {ps : List SqlPred} {bs : List Bool},
    List.Forall₂ (fun p b => sqlEvalPred p row = TV.ofBool b) ps bs →
    sqlEvalOr ps row = TV.ofBool (bs.any id) := by
  intro ps bs h
  induction h with
  | nil => rfl
  | cons h1 _ ih =>
    rw [sqlEvalOr, h1, ih, tvOr_ofBool]
    rfl

/-- The combinator step of `compile_filter_group` preserves pointwise
equivalence: empty parts give the literal `TRUE`, otherwise `AND`/`OR`. -/
theorem combineParts_eval {row : Row} {sparts : List SqlPred} {bparts : List Bool}
    (h : List.Forall₂ (fun p b => sqlEvalPred p row = TV.ofBool b) sparts bparts)
    (comb : FilterCombinator) :
    sqlEvalPred (if sparts.isEmpty then SqlPred.litTrue
      else if comb = .and then SqlPred.and sparts else SqlPred.or sparts) row
      = TV.ofBool (if bparts.isEmpty then true
      else if comb = .and then bparts.all id else bparts.any id) := by
  cases h with
  | nil => rfl
  | cons h1 hrest =>
    rename_i p b ps bs
    simp only [List.isEmpty_cons, Bool.false_eq_true, if_false]
    by_cases hcomb : comb = FilterCombinator.and
    · rw [if_pos hcomb, if_pos hcomb]
      show sqlEvalAnd (p :: ps) row = TV.ofBool ((b :: bs).all id)
      exact sqlEvalAnd_forall₂ (List.Forall₂.cons h1 hrest)
    · rw [if_neg hcomb, if_neg hcomb]
      show sqlEvalOr (p :: ps) row = TV.ofBool ((b :: bs).any id)
      exact sqlEvalOr_forall₂ (List.Forall₂.cons h1 hrest)

/-- The compiled tree of a filter group evaluates, under three-valued SQL
semantics, to the definite embedding of the row evaluator's verdict on any
row where the group is definite. -/
theorem compileFilterGroup_eval : ∀ (fg : FilterGroup) (lookup : List String)
    (row : Row) (p : SqlPred),
    compileFilterGroup fg lookup = .ok p → groupWF fg row = true →
    sqlEvalPred p row = TV.ofBool (fg.evaluate row) := by
  intro fg
  refine @FilterGroup.rec
    (fun fg => ∀ (lookup : List String) (row : Row) (p : SqlPred),
      compileFilterGroup fg lookup = .ok p → groupWF fg row = true →
      sqlEvalPred p row = TV.ofBool (fg.evaluate row))
    (fun gs => ∀ (lookup : List String) (row : Row) (ps : List SqlPred),
      compileGroups gs lookup = .ok ps → groupsWF gs row = true →
      List.Forall₂ (fun p b => sqlEvalPred p row = TV.ofBool b) ps
        (FilterGroup.evalList gs row)) ?_ ?_ ?_ fg
  · intro comb neg conds gs ihgs
    intro lookup row p hc hwf
    rw [compileFilterGroup] at hc
    split at hc
    · exact Except.noConfusion hc
    · rename_i ps hps
      split at hc
      · exact Except.noConfusion hc
      · rename_i qs hqs
        injection hc with hc
        subst hc
        rw [groupWF, Bool.and_eq_true] at hwf
        rcases hwf with ⟨hcw, hgw⟩
        have hC := compileConditions_eval lookup row conds ps hps
          (fun c hcm => List.all_eq_true.1 hcw c hcm)
        have hG := ihgs lookup row qs hqs hgw
        have happ := List.rel_append hC hG
        have hcore := combineParts_eval happ comb
        rw [FilterGroup.evaluate]
        cases neg <;> simp only [Bool.false_eq_true, if_false, if_true, sqlEvalPred,
          hcore, tvNot_ofBool]
  · intro lookup row ps hps hwfx
    rw [compileGroups] at hps
    injection hps with hps
    subst hps
    exact List.Forall₂.nil
  · intro g rest ihg ihrest lookup row ps hps hwf
    rw [compileGroups] at hps
    split at hps
    · exact Except.noConfusion hps
    · rename_i p hp
      split at hps
      · exact Except.noConfusion hps
      · rename_i qs hqs
        injection hps with hps
        subst hps
        rw [groupsWF, Bool.and_eq_true] at hwf
        rcases hwf with ⟨hg, hrest⟩
        rw [FilterGroup.evalList]
        exact List.Forall₂.cons (ihg lookup row p hp hg)
          (ihrest lookup row qs hqs hrest)

/-- C1 counterexample: a `NEQ` condition on a null cell.  Python's
`None != "x"` is `True`, so the row evaluator admits the row; SQL's
`a != 'x'` on a `NULL` cell is `UNKNOWN`, so the compiled predicate's
result set excludes the row — the executors disagree, and no
three-valued-to-two-valued reconciliation maps `UNKNOWN` to `True`. -/
theorem filter_neq_null_diverges :
    FilterGroup.evaluate
      (FilterGroup.mk .and false
        [{ column := "a", operator := .neq, value := Value.str "x" }] [])
      [("a", Value.null)] = true ∧
    compileFilterGroup
      (FilterGroup.mk .and false
        [{ column := "a", operator := .neq, value := Value.str "x" }] [])
      ["a"] = .ok (SqlPred.and [SqlPred.cmp .neq "a" (Value.str "x")]) ∧
    sqlEvalPred (SqlPred.and [SqlPred.cmp .neq "a" (Value.str "x")])
      [("a", Value.null)] = TV.u :=
  ⟨rfl, rfl, rfl⟩

/-- C1 (amended): the executors agree on every row where the filter group
is definite (`groupWF`: comparisons have non-null comparable operands or
an `IS [NOT] NULL`-folded `None` bound, substring operators apply to
string cells with non-null bounds, `BETWEEN` has an exactly-two-element
bound with non-null comparable endpoints, `IN` a list of non-null
comparable elements).  There the compiled predicate evaluates to the
definite embedding of the row evaluator's verdict, the row is in the SQL
result set exactly when the evaluator says `True`, and the two providers'
filter stages keep the same rows.  Outside `groupWF` they can disagree
(`filter_neq_null_diverges`). -/
theorem filter_equivalence_reconciled (fg : FilterGroup) (lookup : List String)
    (row : Row) (p : SqlPred)
    (hc : compileFilterGroup fg lookup = .ok p)
    (hwf : groupWF fg row = true) :
    sqlEvalPred p row = TV.ofBool (fg.evaluate row) ∧
    (fg.evaluate row = true ↔ sqlEvalPred p row = TV.t) ∧
    applyFilter [row] (some fg) = sqlWhere [row] (some p) := by
  have h := compileFilterGroup_eval fg lookup row p hc hwf
  have hbt : (sqlEvalPred p row == TV.t) = fg.evaluate row := by
    rcases hb : fg.evaluate row with _ | _ <;> rw [hb] at h <;> rw [h] <;> rfl
  refine ⟨h, ?_, ?_⟩
  · constructor
    · intro he
      rw [h, he]
      rfl
    · intro ht
      rcases hb : fg.evaluate row with _ | _
      · rw [hb] at h
        rw [h] at ht
        exact TV.noConfusion ht
      · rfl
  · simp only [applyFilter, sqlWhere, List.filter_cons, List.filter_nil, hbt]

/-- C1 witness: the amended equivalence applied to a concrete definite
filter (`a == "x"` on the row `{a: "x"}`), both hypotheses discharged by
computation. -/
theorem filter_equivalence_reconciled_witness :
    compileFilterGroup
        (FilterGroup.mk .and false
          [{ column := "a", operator := .eq, value := Value.str "x" }] [])
        ["a"] = .ok (SqlPred.and [SqlPred.cmp .eq "a" (Value.str "x")]) ∧
    groupWF (FilterGroup.mk .and false
        [{ column := "a", operator := .eq, value := Value.str "x" }] [])
      [("a", Value.str "x")] = true ∧
    sqlEvalPred (SqlPred.and [SqlPred.cmp .eq "a" (Value.str "x")])
        [("a", Value.str "x")]
      = TV.ofBool (FilterGroup.evaluate
          (FilterGroup.mk .and false
            [{ column := "a", operator := .eq, value := Value.str "x" }] [])
          [("a", Value.str "x")]) ∧
    applyFilter [[("a", Value.str "x")]]
        (some (FilterGroup.mk .and false
          [{ column := "a", operator := .eq, value := Value.str "x" }] []))
      = sqlWhere [[("a", Value.str "x")]]
          (some (SqlPred.and [SqlPred.cmp .eq "a" (Value.str "x")])) :=
  ⟨rfl, rfl,
    (filter_equivalence_reconciled
      (FilterGroup.mk .and false
        [{ column := "a", operator := .eq, value := Value.str "x" }] [])
      ["a"] [("a", Value.str "x")]
      (SqlPred.and [SqlPred.cmp .eq "a" (Value.str "x")]) rfl rfl).1,
    (filter_equivalence_reconciled
      (FilterGroup.mk .and false
        [{ column := "a", operator := .eq, value := Value.str "x" }] [])
      ["a"] [("a", Value.str "x")]
      (SqlPred.and [SqlPred.cmp .eq "a" (Value.str "x")]) rfl rfl).2.2⟩
